import Mathlib

/- Verification of the GTFS stops GeoJSON generation pipeline in
   tools/generate_stops_geojson.py: a shallow embedding of the core ETL
   stages (archive table extraction, identifier harmonization, stop
   filtering, route index construction, stop-route join and feature
   assembly), together with proofs about the behaviour specified for it.

   Modelling conventions:
   - CSV rows are association lists from field name to raw string value;
     Python dicts keyed by strings are insertion-ordered association
     lists on which assignment replaces in place (dset).
   - Python float results are kept in the exact scaled-decimal form read
     from the string; IEEE-754 rounding and overflow to infinity are
     abstracted away, while the inf, infinity and nan spellings are
     represented explicitly.
   - The wall clock value datetime.utcnow() is an explicit input of the
     feature assembly stage, and the byte-level CSV decoding of a zip
     member is abstracted by the archive's member-name-to-rows map. -/

namespace GtfsPipeline

/-- Characters stripped by the Python str.strip method (and ignored at
both ends by int and float string conversion). -/
def pyWs (c : Char) : Bool :=
  c = ' ' || c = '\t' || c = '\n' || c = '\r' || c = '\x0b' || c = '\x0c'

/-- Both-ends whitespace strip on a character list, as Python str.strip. -/
def stripChars (cs : List Char) : List Char :=
  ((cs.dropWhile pyWs).reverse.dropWhile pyWs).reverse

/-- Python str.strip on a string. -/
def pyStrip (s : String) : String := String.mk (stripChars s.data)

/-- ASCII lowercase of a character list, as Python str.lower on the
ASCII names appearing here. -/
def lowerChars (cs : List Char) : List Char := cs.map Char.toLower

/-- One parsed CSV row: field name to raw string value, as produced by
csv.DictReader (keys are unique within one parsed row). -/
abbrev Row := List (String × String)

/-- Python dict lookup row.get(k): the value at the first matching key. -/
def rowGet? : Row → String → Option String
  | [], _ => none
  | p :: rest, k => if p.1 = k then some p.2 else rowGet? rest k

/-- Python dict assignment row[k] = v. Only lookups are performed on
rows downstream of an assignment, for which placing the fresh binding
first is an equivalent model. -/
def rowSet (r : Row) (k v : String) : Row :=
  (k, v) :: r.filter (fun p => p.1 ≠ k)

/-- Python expression (value or default) on an optional string: a
missing value or an empty string falls through to the default. -/
def pyOrStr (a : Option String) (b : String) : String :=
  match a with
  | none => b
  | some s => if s = "" then b else s

/-- The pattern (row.get(k) or '').strip() used to read identifier
fields off a row. -/
def rget (r : Row) (k : String) : String := pyStrip ((rowGet? r k).getD "")

/-- Insertion-ordered string-keyed dictionary, as a Python dict. -/
abbrev SDict (α : Type) : Type := List (String × α)

/-- Dictionary lookup. -/
def dfind? {α : Type} : SDict α → String → Option α
  | [], _ => none
  | p :: rest, k => if p.1 = k then some p.2 else dfind? rest k

/-- Dictionary assignment d[k] = v: replace in place when the key is
present, else append at the end, as a Python dict. -/
def dset {α : Type} : SDict α → String → α → SDict α
  | [], k, v => [(k, v)]
  | (k', v') :: rest, k, v =>
      if k' = k then (k, v) :: rest else (k', v') :: dset rest k v

/-- Validity of the tail of a digit run in Python numeric string
conversion: digits, with single underscores strictly between digits. -/
def groupTail : List Char → Bool
  | [] => true
  | c :: rest =>
    if c.isDigit then groupTail rest
    else if c = '_' then
      match rest with
      | [] => false
      | d :: rest2 => d.isDigit && groupTail rest2
    else false

/-- A non-empty valid digit group: a leading digit, then a valid tail. -/
def groupOk (cs : List Char) : Bool :=
  match cs with
  | [] => false
  | c :: rest => c.isDigit && groupTail rest

/-- Numeric value of a run of decimal digits. -/
def digitsToNat (cs : List Char) : ℕ :=
  cs.foldl (fun a c => 10 * a + (c.toNat - 48)) 0

/-- Remove the underscore digit separators Python permits inside
numeric strings. -/
def stripU (cs : List Char) : List Char := cs.filter (fun c => c ≠ '_')

/-- Leading sign of a Python numeric string: (is negative, rest). -/
def parseSign : List Char → Bool × List Char
  | '+' :: r => (false, r)
  | '-' :: r => (true, r)
  | r => (false, r)

/-- Python int(string): optional whitespace and sign, then a non-empty
digit group (underscores allowed between digits); any other shape
raises ValueError, modelled as none. -/
def parseInt (s : String) : Option ℤ :=
  let p := parseSign (stripChars s.data)
  if groupOk p.2 then
    some (if p.1 then -(digitsToNat (stripU p.2) : ℤ) else (digitsToNat (stripU p.2) : ℤ))
  else none

/-- Result of Python float(string). A finite value is the exact scaled
decimal sign * mantissa * 10 ^ ex read from the string. -/
inductive PyFloat where
  | finite (neg : Bool) (mantissa : ℕ) (ex : ℤ)
  | inf (neg : Bool)
  | nan
deriving DecidableEq

/-- Whether a parsed float is a finite number rather than an infinity
or a NaN. -/
def PyFloat.isFinite : PyFloat → Bool
  | .finite _ _ _ => true
  | _ => false

/-- Split a character list on every occurrence of one character. -/
def splitOnChar (c : Char) : List Char → List (List Char)
  | [] => [[]]
  | x :: xs =>
    match splitOnChar c xs with
    | [] => [[]]
    | g :: gs => if x = c then [] :: g :: gs else (x :: g) :: gs

/-- The integer-dot-fraction part of a Python float literal, scaled by
an already parsed decimal exponent. -/
def parseMantissa (neg : Bool) (m : List Char) (ex : ℤ) : Option PyFloat :=
  match splitOnChar '.' m with
  | [ip] =>
      if groupOk ip then some (.finite neg (digitsToNat (stripU ip)) ex) else none
  | [ip, fp] =>
      if (ip.isEmpty || groupOk ip) && (fp.isEmpty || groupOk fp)
          && !(ip.isEmpty && fp.isEmpty) then
        some (.finite neg (digitsToNat (stripU ip ++ stripU fp)) (ex - (stripU fp).length))
      else none
  | _ => none

/-- A Python float literal body after the sign: mantissa with an
optional e-separated decimal exponent. -/
def parseBody (neg : Bool) (cs : List Char) : Option PyFloat :=
  match splitOnChar 'e' cs with
  | [m] => parseMantissa neg m 0
  | [m, e] =>
      let p := parseSign e
      if groupOk p.2 then
        parseMantissa neg m
          (if p.1 then -(digitsToNat (stripU p.2) : ℤ) else (digitsToNat (stripU p.2) : ℤ))
      else none
  | _ => none

/-- Python float(string): optional whitespace and sign, then inf,
infinity or nan (case-insensitive) or a decimal literal with optional
fraction and exponent; any other shape raises ValueError (none). -/
def parseFloat (s : String) : Option PyFloat :=
  let p := parseSign (lowerChars (stripChars s.data))
  if p.2 = "inf".data || p.2 = "infinity".data then some (.inf p.1)
  else if p.2 = "nan".data then some .nan
  else parseBody p.1 p.2

/-- The four relevant GTFS tables read from one archive, plus the
archive file name, as stored per agency by extract_relevant_tables. -/
structure Dataset where
  stops : List Row
  routes : List Row
  trips : List Row
  stop_times : List Row
  source_filename : String
deriving DecidableEq

/-- An input zip archive: its file name, the list of member names, and
the parsed rows of each member (the byte-level CSV decoding performed
by read_csv_from_bytes is abstracted by the tables map). -/
structure ZipArchive where
  fname : String
  names : List String
  tables : String → List Row

/-- A validated stop record produced by filter_and_clean_stops. -/
structure CleanStop where
  stop_id : String
  orig_stop_id : Option String
  agency : Option String
  stop_name : String
  stop_code : String
  location_type : ℤ
  parent_station : String
  stop_lat : PyFloat
  stop_lon : PyFloat
deriving DecidableEq

/-- A route_info record built by build_route_mappings. -/
structure RouteInfo where
  route_id : String
  route_short_name : String
  route_long_name : String
  agency : String
deriving DecidableEq

/-- The properties object of an emitted GeoJSON Feature. -/
structure FeatureProps where
  stop_id : String
  orig_stop_id : Option String
  agency : Option String
  name : String
  code : String
  location_type : ℤ
  parent_station : String
  routes_serving : List String
deriving DecidableEq

/-- An emitted GeoJSON Feature: point geometry plus properties. -/
structure Feature where
  id : String
  geometry_type : String
  coordinates : List PyFloat
  properties : FeatureProps
deriving DecidableEq

/-- The collection-level metadata of the emitted document. -/
structure GeoMetadata where
  date_generated : String
  gtfs_source : String
  license : String
deriving DecidableEq

/-- The emitted GeoJSON FeatureCollection document. -/
structure GeoJson where
  name : String
  metadata : GeoMetadata
  features : List Feature
deriving DecidableEq

/-- Case-insensitive suffix match used to locate a table member inside
an archive: n.lower().endswith(member.lower()). -/
def memberMatches (member n : String) : Bool :=
  List.isSuffixOf (lowerChars member.data) (lowerChars n.data)

/-- read_csv_from_zip: the parsed rows of the first archive member
whose name matches the table basename case-insensitively, or none when
no member matches. -/
def read_csv_from_zip (z : ZipArchive) (member : String) : Option (List Row) :=
  match z.names.filter (fun n => memberMatches member n) with
  | [] => none
  | c :: _ => some (z.tables c)

/-- The Dataset read from one archive: each of the four expected
tables, or an empty table when the member is absent
(read_csv_from_zip(...) or []). -/
def extractDataset (z : ZipArchive) : Dataset :=
  { stops := (read_csv_from_zip z "stops.txt").getD []
    routes := (read_csv_from_zip z "routes.txt").getD []
    trips := (read_csv_from_zip z "trips.txt").getD []
    stop_times := (read_csv_from_zip z "stop_times.txt").getD []
    source_filename := z.fname }

/-- extract_relevant_tables: datasets[agency_code] = extracted tables,
assigned per archive in input order into one Python dict. -/
def extract_relevant_tables (archives : List (String × ZipArchive)) : SDict Dataset :=
  archives.foldl (fun acc p => dset acc p.1 (extractDataset p.2)) []

/-- The metadata decoration applied to a surviving consolidated stop
row: row[_orig_stop_id] = stripped stop_id; row[_agency] = agency. -/
def decorate (ag sid : String) (row : Row) : Row :=
  rowSet (rowSet row "_orig_stop_id" sid) "_agency" ag

/-- The harmonized identifier of a stop: agency-prefixed or bare. -/
def harmonizedId (pfx : Bool) (ag sid : String) : String :=
  if pfx then ag ++ "_" ++ sid else sid

/-- One stops row of harmonize_and_consolidate: skip an empty stop_id,
keep the first occurrence of each harmonized id, and record the
id-to-agency side index. -/
def consStep (pfx : Bool) (ag : String) (acc : SDict Row × SDict String) (row : Row) :
    SDict Row × SDict String :=
  let sid := rget row "stop_id"
  if sid = "" then acc
  else
    let newId := harmonizedId pfx ag sid
    match dfind? acc.1 newId with
    | some _ => acc
    | none => (acc.1 ++ [(newId, decorate ag sid row)], dset acc.2 newId ag)

/-- harmonize_and_consolidate over all datasets in order. -/
def harmonize_and_consolidate (datasets : SDict Dataset) (pfx : Bool) :
    SDict Row × SDict String :=
  datasets.foldl (fun acc p => p.2.stops.foldl (consStep pfx p.1) acc) ([], [])

/-- The latitude source string: row.get(stop_lat) or row.get(lat) or
the empty string. -/
def latStr (row : Row) : String :=
  pyOrStr (rowGet? row "stop_lat") (pyOrStr (rowGet? row "lat") "")

/-- The longitude source string: row.get(stop_lon) or row.get(lon) or
the empty string. -/
def lonStr (row : Row) : String :=
  pyOrStr (rowGet? row "stop_lon") (pyOrStr (rowGet? row "lon") "")

/-- Normalized location_type of a row: a missing or empty value becomes
0, and a value rejected by int() also becomes 0. -/
def ltNorm (row : Row) : ℤ :=
  let lt0 := pyStrip ((rowGet? row "location_type").getD "")
  let lt1 := if lt0 = "" then "0" else lt0
  match parseInt lt1 with
  | some i => i
  | none => 0

/-- The CleanStop record built for a row surviving both checks. -/
def mkClean (sid : String) (row : Row) (la lo : PyFloat) : CleanStop :=
  { stop_id := sid
    orig_stop_id := rowGet? row "_orig_stop_id"
    agency := rowGet? row "_agency"
    stop_name := pyOrStr (rowGet? row "stop_name") (pyOrStr (rowGet? row "stop_desc") "")
    stop_code := pyOrStr (rowGet? row "stop_code") ""
    location_type := ltNorm row
    parent_station := pyOrStr (rowGet? row "parent_station") ""
    stop_lat := la
    stop_lon := lo }

/-- One entry of filter_and_clean_stops: drop the row unless both
coordinate fields convert under float() and the normalized
location_type is 0 or 1. -/
def filterStep (clean : SDict CleanStop) (p : String × Row) : SDict CleanStop :=
  match parseFloat (latStr p.2), parseFloat (lonStr p.2) with
  | some la, some lo =>
      if ltNorm p.2 = 0 ∨ ltNorm p.2 = 1 then dset clean p.1 (mkClean p.1 p.2 la lo)
      else clean
  | _, _ => clean

/-- filter_and_clean_stops over the consolidated mapping in order. -/
def filter_and_clean_stops (cons : SDict Row) : SDict CleanStop :=
  cons.foldl filterStep []

/-- Generic dictionary-building fold step: when the row yields an
entry, assign it, else leave the dictionary unchanged. -/
def keyedStep {α : Type} (f : Row → Option (String × α)) (acc : SDict α) (row : Row) :
    SDict α :=
  match f row with
  | none => acc
  | some e => dset acc e.1 e.2

/-- The route_info entry built from one routes row, or none when the
stripped route_id is empty. -/
def routeEntry (ag agPre : String) (r : Row) : Option (String × RouteInfo) :=
  let rid := rget r "route_id"
  if rid = "" then none
  else some (agPre ++ rid,
    { route_id := agPre ++ rid
      route_short_name :=
        pyOrStr (rowGet? r "route_short_name") (pyOrStr (rowGet? r "route_id") "")
      route_long_name := pyOrStr (rowGet? r "route_long_name") ""
      agency := ag })

/-- The trip_to_route entry built from one trips row, or none when the
stripped trip_id or route_id is empty. -/
def tripEntry (agPre : String) (t : Row) : Option (String × String) :=
  let tid := rget t "trip_id"
  if tid = "" then none
  else
    let rid := rget t "route_id"
    if rid = "" then none
    else some (agPre ++ tid, agPre ++ rid)

/-- build_route_mappings: route metadata by harmonized route id and
trip-to-route resolution by harmonized trip id. -/
def build_route_mappings (datasets : SDict Dataset) (pfx : Bool) :
    SDict RouteInfo × SDict String :=
  datasets.foldl (fun acc p =>
    let agPre := if pfx then p.1 ++ "_" else ""
    (p.2.routes.foldl (keyedStep (routeEntry p.1 agPre)) acc.1,
     p.2.trips.foldl (keyedStep (tripEntry agPre)) acc.2)) ([], [])

/-- defaultdict(set) accumulation: add one route id to the set of
routes serving a stop, creating the entry on first sight (sets are
modelled as duplicate-free lists). -/
def addToSet (m : SDict (List String)) (k v : String) : SDict (List String) :=
  match dfind? m k with
  | some s => dset m k (if v ∈ s then s else s ++ [v])
  | none => dset m k [v]

/-- One stop_times row of build_stop_to_routes: require non-empty
stop_id and trip_id, resolve the harmonized trip id through
trip_to_route, and accumulate the route on success. -/
def stStep (pfx : Bool) (agPre : String) (t2r : SDict String)
    (acc : SDict (List String)) (st : Row) : SDict (List String) :=
  let sid := rget st "stop_id"
  if sid = "" then acc
  else
    let sidP := if pfx then agPre ++ sid else sid
    let tid := rget st "trip_id"
    if tid = "" then acc
    else
      let tidP := if pfx then agPre ++ tid else tid
      match dfind? t2r tidP with
      | some ridP => addToSet acc sidP ridP
      | none => acc

/-- Code-point lexicographic order on character lists, as the Python
string comparison underlying sorted. -/
def strLeB : List Char → List Char → Bool
  | [], _ => true
  | _ :: _, [] => false
  | a :: as, b :: bs => if a = b then strLeB as bs else decide (a.toNat < b.toNat)

/-- Insert a string into an ascending list, keeping it ascending. -/
def insertSorted (x : String) : List String → List String
  | [] => [x]
  | y :: ys => if strLeB x.data y.data then x :: y :: ys else y :: insertSorted x ys

/-- sorted(list(s)) on an accumulated set of route ids: the ascending
enumeration of its distinct members. -/
def sortStrings (l : List String) : List String := l.foldr insertSorted []

/-- build_stop_to_routes: accumulate the set of harmonized route ids
serving each harmonized stop id, then turn every set into a sorted
list. -/
def build_stop_to_routes (datasets : SDict Dataset) (t2r : SDict String) (pfx : Bool) :
    SDict (List String) :=
  (datasets.foldl (fun acc p =>
      p.2.stop_times.foldl (stStep pfx (if pfx then p.1 ++ "_" else "") t2r) acc) []).map
    (fun p => (p.1, sortStrings p.2))

/-- Display name of a route id inside routes_serving: its short name
when route_info has a non-empty one, else the harmonized id itself. -/
def displayName (route_info : SDict RouteInfo) (rid : String) : String :=
  match dfind? route_info rid with
  | some meta => if meta.route_short_name = "" then rid else meta.route_short_name
  | none => rid

/-- The Feature assembled by create_geojson for one clean stop. -/
def mkFeature (stop_routes : SDict (List String)) (route_info : SDict RouteInfo)
    (p : String × CleanStop) : Feature :=
  { id := p.1
    geometry_type := "Point"
    coordinates := [p.2.stop_lon, p.2.stop_lat]
    properties :=
      { stop_id := p.2.stop_id
        orig_stop_id := p.2.orig_stop_id
        agency := p.2.agency
        name := p.2.stop_name
        code := p.2.stop_code
        location_type := p.2.location_type
        parent_station := p.2.parent_station
        routes_serving := ((dfind? stop_routes p.1).getD []).map (displayName route_info) } }

/-- create_geojson: one Feature per clean stop in insertion order plus
collection metadata; the datetime.utcnow() timestamp is an input. -/
def create_geojson (clean : SDict CleanStop) (stop_routes : SDict (List String))
    (route_info : SDict RouteInfo) (now : String) : GeoJson :=
  { name := "Cyprus_Public_Transport_Stops"
    metadata :=
      { date_generated := now
        gtfs_source := "Cyprus National Access Point / MotionBusCard"
        license := "CC-BY-4.0" }
    features := clean.map (mkFeature stop_routes route_info) }

/-- The core of main after archive loading: consolidation, filtering,
route index construction, the optional stop-route join (skipped when
skip_enrich is set, leaving stop_routes empty), and feature assembly. -/
def pipelineRun (datasets : SDict Dataset) (pfx skipEnrich : Bool) (now : String) : GeoJson :=
  let cons := (harmonize_and_consolidate datasets pfx).1
  let clean := filter_and_clean_stops cons
  let maps := build_route_mappings datasets pfx
  let stop_routes := if skipEnrich then [] else build_stop_to_routes datasets maps.2 pfx
  create_geojson clean stop_routes maps.1 now

/- ------------------------------------------------------------------ -/
/- Infrastructure lemmas about the dictionary and row model.          -/
/- ------------------------------------------------------------------ -/

theorem dfind?_dset {α : Type} (d : SDict α) (k : String) (v : α) (k' : String) :
    dfind? (dset d k v) k' = if k' = k then some v else dfind? d k' := by
  induction d with
  | nil => simp [dset, dfind?, eq_comm]
  | cons p rest ih =>
    rcases p with ⟨p1, p2⟩
    by_cases hk : p1 = k
    · subst hk
      by_cases h : k' = p1 <;> simp [dset, dfind?, h, eq_comm]
    · by_cases h : p1 = k'
      · subst h
        simp [dset, dfind?, hk]
      · simp [dset, dfind?, hk, h, ih]

theorem dfind?_append {α : Type} (d1 d2 : SDict α) (k : String) :
    dfind? (d1 ++ d2) k = (dfind? d1 k).or (dfind? d2 k) := by
  induction d1 with
  | nil => simp [dfind?]
  | cons p rest ih =>
    by_cases h : p.1 = k <;> simp [dfind?, h, ih]

theorem dfind?_eq_none_of_not_mem_keys {α : Type} {d : SDict α} {k : String}
    (h : k ∉ d.map Prod.fst) : dfind? d k = none := by
  induction d with
  | nil => rfl
  | cons p rest ih =>
    simp only [List.map_cons, List.mem_cons] at h
    push_neg at h
    have h1 : ¬ p.1 = k := fun hh => h.1 hh.symm
    simp [dfind?, h1, ih h.2]

theorem dfind?_mem {α : Type} {d : SDict α} {k : String} {v : α}
    (h : dfind? d k = some v) : (k, v) ∈ d := by
  induction d with
  | nil => simp [dfind?] at h
  | cons p rest ih =>
    by_cases hp : p.1 = k
    · simp [dfind?, hp] at h
      subst h
      simp [← hp]
    · simp [dfind?, hp] at h
      exact List.mem_cons_of_mem p (ih h)

theorem mem_dset {α : Type} {d : SDict α} {k : String} {v : α} {q : String × α}
    (h : q ∈ dset d k v) : q = (k, v) ∨ q ∈ d := by
  induction d with
  | nil => simp [dset] at h; simp [h]
  | cons p rest ih =>
    by_cases hk : p.1 = k
    · simp [dset, hk] at h
      rcases h with h | h
      · exact Or.inl (by simp [h])
      · exact Or.inr (List.mem_cons_of_mem p h)
    · simp [dset, hk] at h
      rcases h with h | h
      · exact Or.inr (by simp [h])
      · rcases ih h with h2 | h2
        · exact Or.inl h2
        · exact Or.inr (List.mem_cons_of_mem p h2)

theorem keys_dset {α : Type} (d : SDict α) (k : String) (v : α) :
    (dset d k v).map Prod.fst =
      if k ∈ d.map Prod.fst then d.map Prod.fst else d.map Prod.fst ++ [k] := by
  induction d with
  | nil => simp [dset]
  | cons p rest ih =>
    by_cases hk : p.1 = k
    · simp [dset, hk]
    · have h2 : ¬ k = p.1 := fun h => hk h.symm
      by_cases hm : k ∈ rest.map Prod.fst <;>
        simp [dset, hk, h2, ih, hm]

theorem nodup_keys_dset {α : Type} {d : SDict α} (k : String) (v : α)
    (h : (d.map Prod.fst).Nodup) : ((dset d k v).map Prod.fst).Nodup := by
  rw [keys_dset]
  by_cases hm : k ∈ d.map Prod.fst
  · simpa [hm] using h
  · simp only [hm, if_false]
    simpa [List.nodup_append, hm] using h

theorem rowGet?_rowSet_self (r : Row) (k v : String) :
    rowGet? (rowSet r k v) k = some v := by
  simp [rowGet?, rowSet]

theorem rowGet?_filter_ne (r : Row) (k k' : String) (h : ¬ k = k') :
    rowGet? (r.filter (fun p => p.1 ≠ k)) k' = rowGet? r k' := by
  have h3 : ¬ k' = k := fun hh => h hh.symm
  induction r with
  | nil => simp
  | cons p rest ih =>
    simp only [ne_eq, decide_not] at ih ⊢
    by_cases hp : p.1 = k
    · simp [List.filter_cons, hp, rowGet?, h, ih]
    · by_cases h2 : p.1 = k'
      · simp [List.filter_cons, hp, rowGet?, h2, h3]
      · simp [List.filter_cons, hp, rowGet?, h2, ih]

theorem rowGet?_rowSet_ne (r : Row) (k v k' : String) (h : k' ≠ k) :
    rowGet? (rowSet r k v) k' = rowGet? r k' := by
  have hkk : ¬ k = k' := fun hh => h hh.symm
  simp only [rowSet, rowGet?, hkk, if_false]
  exact rowGet?_filter_ne r k k' hkk

theorem string_append_right_cancel {a b c : String} (h : a ++ c = b ++ c) : a = b := by
  have hd : a.data ++ c.data = b.data ++ c.data := by
    have h1 := congrArg String.data h
    simpa [String.data_append] using h1
  have h2 := List.append_cancel_right hd
  cases a; cases b; exact congrArg String.mk h2

theorem string_append_left_cancel {a b c : String} (h : a ++ b = a ++ c) : b = c := by
  have hd : a.data ++ b.data = a.data ++ c.data := by
    have h1 := congrArg String.data h
    simpa [String.data_append] using h1
  have h2 := List.append_cancel_left hd
  cases b; cases c; exact congrArg String.mk h2

theorem harmonizedId_inj_agency {a b s : String}
    (h : harmonizedId true a s = harmonizedId true b s) : a = b := by
  simp only [harmonizedId, if_true] at h
  have h1 : (a ++ "_") ++ s = (b ++ "_") ++ s := by
    simpa [String.append_assoc] using h
  exact string_append_right_cancel (string_append_right_cancel h1)

theorem harmonizedId_inj_sid {a s t : String}
    (h : harmonizedId true a s = harmonizedId true a t) : s = t := by
  simp only [harmonizedId, if_true] at h
  have h1 : (a ++ "_") ++ s = (a ++ "_") ++ t := by
    simpa [String.append_assoc] using h
  exact string_append_left_cancel h1

theorem prefixed_append_inj_right {a s t : String}
    (h : a ++ "_" ++ s = a ++ "_" ++ t) : s = t :=
  @harmonizedId_inj_sid a s t (by simpa [harmonizedId] using h)

/- ------------------------------------------------------------------ -/
/- Last-wins characterization of dictionary-building folds.           -/
/- ------------------------------------------------------------------ -/

/-- The value assigned to a key by the last contributing row of a list,
mirroring repeated dictionary assignment. -/
def lastVal {α : Type} (f : Row → Option (String × α)) : List Row → String → Option α
  | [], _ => none
  | r :: rest, k =>
    match lastVal f rest k with
    | some v => some v
    | none =>
      match f r with
      | some e => if e.1 = k then some e.2 else none
      | none => none

theorem foldl_keyedStep_dfind? {α : Type} (f : Row → Option (String × α))
    (l : List Row) (acc : SDict α) (k : String) :
    dfind? (l.foldl (keyedStep f) acc) k =
      match lastVal f l k with
      | some v => some v
      | none => dfind? acc k := by
  induction l generalizing acc with
  | nil => simp [lastVal]
  | cons r rest ih =>
    rw [List.foldl_cons, ih]
    simp only [lastVal]
    cases lastVal f rest k with
    | some v => simp
    | none =>
      simp only
      cases hf : f r with
      | none => simp [keyedStep, hf]
      | some e =>
        by_cases he : e.1 = k
        · simp [keyedStep, hf, dfind?_dset, he]
        · have : ¬ k = e.1 := fun hh => he hh.symm
          simp [keyedStep, hf, dfind?_dset, he, this]

theorem lastVal_sound {α : Type} {f : Row → Option (String × α)} {l : List Row}
    {k : String} {v : α} (h : lastVal f l k = some v) : ∃ r ∈ l, f r = some (k, v) := by
  induction l with
  | nil => simp [lastVal] at h
  | cons r rest ih =>
    simp only [lastVal] at h
    cases hrest : lastVal f rest k with
    | some w =>
      rw [hrest] at h
      simp only [Option.some.injEq] at h
      subst h
      obtain ⟨r2, hr2, hf⟩ := ih hrest
      exact ⟨r2, List.mem_cons_of_mem r hr2, hf⟩
    | none =>
      rw [hrest] at h
      cases hf : f r with
      | none => rw [hf] at h; simp at h
      | some e =>
        rw [hf] at h
        dsimp only at h
        by_cases he : e.1 = k
        · rw [if_pos he] at h
          simp only [Option.some.injEq] at h
          refine ⟨r, List.mem_cons_self r rest, ?_⟩
          rw [hf, ← he, ← h]
        · rw [if_neg he] at h; simp at h

theorem lastVal_isSome {α : Type} {f : Row → Option (String × α)} {l : List Row}
    {k : String} {v : α} {r : Row} (hr : r ∈ l) (hf : f r = some (k, v)) :
    (lastVal f l k).isSome := by
  induction l with
  | nil => simp at hr
  | cons r2 rest ih =>
    simp only [lastVal]
    cases hrest : lastVal f rest k with
    | some w => simp
    | none =>
      rcases List.mem_cons.mp hr with h | h
      · subst h
        simp [hf]
      · have := ih h
        rw [hrest] at this
        simp at this

theorem lastVal_eq_none {α : Type} {f : Row → Option (String × α)} {l : List Row}
    {k : String} (h : ∀ r ∈ l, ∀ v, f r ≠ some (k, v)) : lastVal f l k = none := by
  induction l with
  | nil => rfl
  | cons r rest ih =>
    simp only [lastVal]
    rw [ih (fun r2 h2 => h r2 (List.mem_cons_of_mem r h2))]
    cases hf : f r with
    | none => rfl
    | some e =>
      by_cases he : e.1 = k
      · exact absurd (hf.trans (by rw [← he])) (h r (List.mem_cons_self r rest) e.2)
      · simp [he]

theorem lastVal_filter {α : Type} {f : Row → Option (String × α)} {p : Row → Bool}
    {l : List Row} {k : String}
    (h : ∀ r, p r = false → ∀ v, f r ≠ some (k, v)) :
    lastVal f (l.filter p) k = lastVal f l k := by
  induction l with
  | nil => rfl
  | cons r rest ih =>
    rw [List.filter_cons]
    cases hp : p r with
    | true => simp only [if_pos rfl, lastVal, ih]
    | false =>
      simp only [Bool.false_eq_true, if_false]
      rw [ih]
      simp only [lastVal]
      cases hrest : lastVal f rest k with
      | some w => rfl
      | none =>
        cases hf : f r with
        | none => rfl
        | some e =>
          dsimp only
          by_cases he : e.1 = k
          · exact absurd (hf.trans (by rw [← he])) (h r hp e.2)
          · rw [if_neg he]

theorem lastVal_const {α : Type} {f : Row → Option (String × α)} {l : List Row}
    {k : String} {w : α}
    (hall : ∀ r ∈ l, ∀ v, f r = some (k, v) → v = w)
    (hex : ∃ r ∈ l, ∃ v, f r = some (k, v)) : lastVal f l k = some w := by
  obtain ⟨r, hr, v, hf⟩ := hex
  have hs := lastVal_isSome hr hf
  cases hl : lastVal f l k with
  | none => rw [hl] at hs; simp at hs
  | some u =>
    obtain ⟨r2, hr2, hf2⟩ := lastVal_sound hl
    rw [hall r2 hr2 u hf2]

/- ------------------------------------------------------------------ -/
/- Membership characterization of the stop-route join accumulation.   -/
/- ------------------------------------------------------------------ -/

/-- The route set accumulated so far for one harmonized stop id. -/
def dGetSet (m : SDict (List String)) (k : String) : List String := (dfind? m k).getD []

theorem mem_addToSet (m : SDict (List String)) (k v k' x : String) :
    x ∈ dGetSet (addToSet m k v) k' ↔ x ∈ dGetSet m k' ∨ (k' = k ∧ x = v) := by
  unfold addToSet dGetSet
  cases hm : dfind? m k with
  | some s =>
    rw [dfind?_dset]
    by_cases h : k' = k
    · subst h
      rw [hm]
      by_cases hv : v ∈ s
      · simp only [if_pos rfl, if_pos hv, Option.getD_some, true_and]
        constructor
        · exact fun hx => Or.inl hx
        · rintro (hx | hx)
          · exact hx
          · exact hx ▸ hv
      · simp [hv]
    · simp [h]
  | none =>
    rw [dfind?_dset]
    by_cases h : k' = k
    · subst h
      rw [hm]
      simp
    · simp [h]

/-- Contribution of one stop_times row to the join accumulator: both
identifiers non-empty after stripping, the harmonized stop id equal to
the key, and the harmonized trip id resolving to the value through
trip_to_route. -/
def stContrib (pfx : Bool) (agPre : String) (t2r : SDict String) (st : Row)
    (k x : String) : Prop :=
  rget st "stop_id" ≠ "" ∧ rget st "trip_id" ≠ "" ∧
  k = (if pfx then agPre ++ rget st "stop_id" else rget st "stop_id") ∧
  dfind? t2r (if pfx then agPre ++ rget st "trip_id" else rget st "trip_id") = some x

theorem mem_stStep (pfx : Bool) (agPre : String) (t2r : SDict String)
    (acc : SDict (List String)) (st : Row) (k x : String) :
    x ∈ dGetSet (stStep pfx agPre t2r acc st) k ↔
      x ∈ dGetSet acc k ∨ stContrib pfx agPre t2r st k x := by
  by_cases h1 : rget st "stop_id" = ""
  · simp [stStep, h1, stContrib]
  · by_cases h2 : rget st "trip_id" = ""
    · simp [stStep, h1, h2, stContrib]
    · cases ht : dfind? t2r (if pfx then agPre ++ rget st "trip_id" else rget st "trip_id") with
      | none => simp [stStep, h1, h2, ht, stContrib]
      | some ridP =>
        have hs : stStep pfx agPre t2r acc st =
            addToSet acc (if pfx then agPre ++ rget st "stop_id" else rget st "stop_id") ridP := by
          simp [stStep, h1, h2, ht]
        rw [hs, mem_addToSet]
        simp [stContrib, h1, h2, ht, eq_comm]

theorem foldl_stStep_mem (pfx : Bool) (agPre : String) (t2r : SDict String)
    (l : List Row) (acc : SDict (List String)) (k x : String) :
    x ∈ dGetSet (l.foldl (stStep pfx agPre t2r) acc) k ↔
      x ∈ dGetSet acc k ∨ ∃ st ∈ l, stContrib pfx agPre t2r st k x := by
  induction l generalizing acc with
  | nil => simp
  | cons st rest ih =>
    rw [List.foldl_cons, ih, mem_stStep]
    simp only [List.mem_cons]
    constructor
    · rintro ((h | h) | ⟨st2, hm, hc⟩)
      · exact Or.inl h
      · exact Or.inr ⟨st, Or.inl rfl, h⟩
      · exact Or.inr ⟨st2, Or.inr hm, hc⟩
    · rintro (h | ⟨st2, (hm | hm), hc⟩)
      · exact Or.inl (Or.inl h)
      · exact Or.inl (Or.inr (hm ▸ hc))
      · exact Or.inr ⟨st2, hm, hc⟩

theorem mem_insertSorted (x y : String) (l : List String) :
    x ∈ insertSorted y l ↔ x = y ∨ x ∈ l := by
  induction l with
  | nil => simp [insertSorted]
  | cons z zs ih =>
    by_cases h : strLeB y.data z.data
    · simp [insertSorted, h]
    · rw [insertSorted, if_neg h]
      simp only [List.mem_cons, ih]
      tauto

theorem mem_sortStrings (x : String) (l : List String) :
    x ∈ sortStrings l ↔ x ∈ l := by
  unfold sortStrings
  induction l with
  | nil => simp
  | cons y ys ih => simp [List.foldr_cons, mem_insertSorted, ih]

theorem dfind?_map_value {α β : Type} (g : α → β) (m : SDict α) (k : String) :
    dfind? (m.map (fun p => (p.1, g p.2))) k = (dfind? m k).map g := by
  induction m with
  | nil => rfl
  | cons p rest ih => by_cases h : p.1 = k <;> simp [dfind?, h, ih]

/- ------------------------------------------------------------------ -/
/- First-wins characterization of the consolidation fold.             -/
/- ------------------------------------------------------------------ -/

/-- All (agency, stops row) pairs of the datasets, in processing order. -/
def consPairs : SDict Dataset → List (String × Row)
  | [] => []
  | p :: rest => p.2.stops.map (fun row => (p.1, row)) ++ consPairs rest

theorem harmonize_foldl_eq (pfx : Bool) (datasets : SDict Dataset)
    (acc0 : SDict Row × SDict String) :
    datasets.foldl (fun acc p => p.2.stops.foldl (consStep pfx p.1) acc) acc0 =
      (consPairs datasets).foldl (fun acc q => consStep pfx q.1 acc q.2) acc0 := by
  induction datasets generalizing acc0 with
  | nil => rfl
  | cons p rest ih =>
    rw [List.foldl_cons, consPairs, List.foldl_append, ih]
    congr 1
    rw [List.foldl_map]

theorem harmonize_eq_consPairs (datasets : SDict Dataset) (pfx : Bool) :
    harmonize_and_consolidate datasets pfx =
      (consPairs datasets).foldl (fun acc q => consStep pfx q.1 acc q.2) ([], []) :=
  harmonize_foldl_eq pfx datasets ([], [])

/-- The first pair of a processing-order list whose stops row has a
non-empty stop_id harmonizing to the given key. -/
def firstCons (pfx : Bool) : List (String × Row) → String → Option (String × Row)
  | [], _ => none
  | q :: rest, k =>
    if rget q.2 "stop_id" ≠ "" ∧ harmonizedId pfx q.1 (rget q.2 "stop_id") = k
    then some q else firstCons pfx rest k

theorem foldl_consStep_dfind? (pfx : Bool) (l : List (String × Row))
    (acc : SDict Row × SDict String) (k : String) :
    dfind? (l.foldl (fun a q => consStep pfx q.1 a q.2) acc).1 k =
      match dfind? acc.1 k with
      | some v => some v
      | none =>
          (firstCons pfx l k).map (fun q => decorate q.1 (rget q.2 "stop_id") q.2) := by
  induction l generalizing acc with
  | nil => cases h : dfind? acc.1 k <;> simp [firstCons, h]
  | cons q rest ih =>
    rw [List.foldl_cons, ih]
    by_cases h1 : rget q.2 "stop_id" = ""
    · have hstep : consStep pfx q.1 acc q.2 = acc := by
        simp [consStep, h1]
      rw [hstep]
      cases h : dfind? acc.1 k <;> simp [firstCons, h, h1]
    · cases hacc : dfind? acc.1 (harmonizedId pfx q.1 (rget q.2 "stop_id")) with
      | some w =>
        have hstep : consStep pfx q.1 acc q.2 = acc := by
          simp [consStep, h1, hacc]
        rw [hstep]
        by_cases hk : harmonizedId pfx q.1 (rget q.2 "stop_id") = k
        · rw [← hk, hacc]
        · cases h : dfind? acc.1 k <;> simp [firstCons, h, h1, hk]
      | none =>
        have hstep : (consStep pfx q.1 acc q.2).1 =
            acc.1 ++ [(harmonizedId pfx q.1 (rget q.2 "stop_id"),
              decorate q.1 (rget q.2 "stop_id") q.2)] := by
          simp [consStep, h1, hacc]
        rw [hstep, dfind?_append]
        by_cases hk : harmonizedId pfx q.1 (rget q.2 "stop_id") = k
        · rw [← hk, hacc]
          simp [dfind?, firstCons, h1]
        · cases h : dfind? acc.1 k <;> simp [dfind?, firstCons, h, h1, hk]

theorem mem_foldl_consStep {pfx : Bool} {l : List (String × Row)}
    {acc : SDict Row × SDict String} {k : String} {drow : Row}
    (h : (k, drow) ∈ (l.foldl (fun a q => consStep pfx q.1 a q.2) acc).1) :
    (k, drow) ∈ acc.1 ∨ ∃ q ∈ l, rget q.2 "stop_id" ≠ "" ∧
      k = harmonizedId pfx q.1 (rget q.2 "stop_id") ∧
      drow = decorate q.1 (rget q.2 "stop_id") q.2 := by
  induction l generalizing acc with
  | nil => exact Or.inl h
  | cons q rest ih =>
    rw [List.foldl_cons] at h
    rcases ih h with h2 | ⟨q2, hq2, hc⟩
    · by_cases h1 : rget q.2 "stop_id" = ""
      · rw [show consStep pfx q.1 acc q.2 = acc by simp [consStep, h1]] at h2
        exact Or.inl h2
      · cases hacc : dfind? acc.1 (harmonizedId pfx q.1 (rget q.2 "stop_id")) with
        | some w =>
          rw [show consStep pfx q.1 acc q.2 = acc by simp [consStep, h1, hacc]] at h2
          exact Or.inl h2
        | none =>
          rw [show (consStep pfx q.1 acc q.2).1 =
              acc.1 ++ [(harmonizedId pfx q.1 (rget q.2 "stop_id"),
                decorate q.1 (rget q.2 "stop_id") q.2)] by simp [consStep, h1, hacc]] at h2
          rcases List.mem_append.mp h2 with h3 | h3
          · exact Or.inl h3
          · simp only [List.mem_singleton, Prod.mk.injEq] at h3
            exact Or.inr ⟨q, List.mem_cons_self q rest, h1, h3.1, h3.2⟩
    · exact Or.inr ⟨q2, List.mem_cons_of_mem q hq2, hc⟩

theorem mem_consPairs {datasets : SDict Dataset} {ag : String} {row : Row} :
    (ag, row) ∈ consPairs datasets ↔ ∃ ds, (ag, ds) ∈ datasets ∧ row ∈ ds.stops := by
  induction datasets with
  | nil => simp [consPairs]
  | cons p rest ih =>
    simp only [consPairs, List.mem_append, List.mem_map, Prod.mk.injEq, ih, List.mem_cons]
    constructor
    · rintro (⟨r, hr, hag, hrow⟩ | ⟨ds, hds, hrow⟩)
      · refine ⟨p.2, Or.inl ?_, hrow ▸ hr⟩
        rw [← hag]
      · exact ⟨ds, Or.inr hds, hrow⟩
    · rintro ⟨ds, (hds | hds), hrow⟩
      · left
        have hds2 : ds = p.2 := by rw [← hds]
        have hag2 : p.1 = ag := by rw [← hds]
        exact ⟨row, hds2 ▸ hrow, hag2, rfl⟩
      · exact Or.inr ⟨ds, hds, hrow⟩

theorem mem_keys_isSome {α : Type} {d : SDict α} {k : String}
    (h : k ∈ d.map Prod.fst) : (dfind? d k).isSome := by
  induction d with
  | nil => simp at h
  | cons p rest ih =>
    rcases List.mem_cons.mp h with h2 | h2
    · simp [dfind?, h2.symm]
    · by_cases hp : p.1 = k <;> simp [dfind?, hp, ih h2]

theorem nodup_keys_foldl_consStep (pfx : Bool) (l : List (String × Row))
    (acc : SDict Row × SDict String) (h : (acc.1.map Prod.fst).Nodup) :
    (((l.foldl (fun a q => consStep pfx q.1 a q.2) acc).1).map Prod.fst).Nodup := by
  induction l generalizing acc with
  | nil => exact h
  | cons q rest ih =>
    rw [List.foldl_cons]
    refine ih _ ?_
    by_cases h1 : rget q.2 "stop_id" = ""
    · rw [show consStep pfx q.1 acc q.2 = acc by simp [consStep, h1]]
      exact h
    · cases hacc : dfind? acc.1 (harmonizedId pfx q.1 (rget q.2 "stop_id")) with
      | some w =>
        rw [show consStep pfx q.1 acc q.2 = acc by simp [consStep, h1, hacc]]
        exact h
      | none =>
        rw [show (consStep pfx q.1 acc q.2).1 =
            acc.1 ++ [(harmonizedId pfx q.1 (rget q.2 "stop_id"),
              decorate q.1 (rget q.2 "stop_id") q.2)] by simp [consStep, h1, hacc]]
        have hnm : harmonizedId pfx q.1 (rget q.2 "stop_id") ∉ acc.1.map Prod.fst := by
          intro hm
          have := mem_keys_isSome hm
          rw [hacc] at this
          simp at this
        simp [List.nodup_append, h, hnm]

/- ------------------------------------------------------------------ -/
/- Characterization of the stop filter.                               -/
/- ------------------------------------------------------------------ -/

theorem foldl_filterStep_dfind? (cons : SDict Row) (acc : SDict CleanStop) (sid : String)
    (hnd : (cons.map Prod.fst).Nodup) :
    dfind? (cons.foldl filterStep acc) sid =
      match dfind? cons sid with
      | none => dfind? acc sid
      | some row =>
        match parseFloat (latStr row), parseFloat (lonStr row) with
        | some la, some lo =>
            if ltNorm row = 0 ∨ ltNorm row = 1 then some (mkClean sid row la lo)
            else dfind? acc sid
        | _, _ => dfind? acc sid := by
  induction cons generalizing acc with
  | nil => rfl
  | cons p rest ih =>
    have hnd2 : (rest.map Prod.fst).Nodup := (List.nodup_cons.mp (by simpa using hnd)).2
    have hnm : p.1 ∉ rest.map Prod.fst := (List.nodup_cons.mp (by simpa using hnd)).1
    rw [List.foldl_cons, ih _ hnd2]
    by_cases hp : p.1 = sid
    · subst hp
      rw [dfind?_eq_none_of_not_mem_keys hnm]
      rw [show dfind? (p :: rest) p.1 = some p.2 by simp [dfind?]]
      unfold filterStep
      dsimp only
      cases hla : parseFloat (latStr p.2) with
      | none => rfl
      | some la =>
        cases hlo : parseFloat (lonStr p.2) with
        | none => rfl
        | some lo =>
          dsimp only
          by_cases hlt : ltNorm p.2 = 0 ∨ ltNorm p.2 = 1
          · rw [if_pos hlt, if_pos hlt, dfind?_dset, if_pos rfl]
          · rw [if_neg hlt, if_neg hlt]
    · rw [show dfind? (p :: rest) sid = dfind? rest sid by simp [dfind?, hp]]
      have hstep : dfind? (filterStep acc p) sid = dfind? acc sid := by
        unfold filterStep
        cases parseFloat (latStr p.2) with
        | none => rfl
        | some la =>
          cases parseFloat (lonStr p.2) with
          | none => rfl
          | some lo =>
            dsimp only
            by_cases hlt : ltNorm p.2 = 0 ∨ ltNorm p.2 = 1
            · rw [if_pos hlt, dfind?_dset, if_neg (fun hh => hp hh.symm)]
            · rw [if_neg hlt]
      rw [hstep]

theorem mem_foldl_filterStep {cons : SDict Row} {acc : SDict CleanStop} {sid : String}
    {cs : CleanStop} (h : (sid, cs) ∈ cons.foldl filterStep acc) :
    (sid, cs) ∈ acc ∨ ∃ row la lo, (sid, row) ∈ cons ∧
      parseFloat (latStr row) = some la ∧ parseFloat (lonStr row) = some lo ∧
      cs = mkClean sid row la lo := by
  induction cons generalizing acc with
  | nil => exact Or.inl h
  | cons p rest ih =>
    rw [List.foldl_cons] at h
    rcases ih h with h2 | ⟨row, la, lo, hm, hla, hlo, hcs⟩
    · unfold filterStep at h2
      rcases hA : parseFloat (latStr p.2) with _ | la
      · rw [hA] at h2
        exact Or.inl h2
      · rw [hA] at h2
        rcases hB : parseFloat (lonStr p.2) with _ | lo
        · rw [hB] at h2
          exact Or.inl h2
        · rw [hB] at h2
          dsimp only at h2
          by_cases hlt : ltNorm p.2 = 0 ∨ ltNorm p.2 = 1
          · rw [if_pos hlt] at h2
            rcases mem_dset h2 with h3 | h3
            · simp only [Prod.mk.injEq] at h3
              refine Or.inr ⟨p.2, la, lo, ?_, hA, hB, ?_⟩
              · rw [h3.1]
                exact List.mem_cons_self p rest
              · rw [h3.2, h3.1]
            · exact Or.inl h3
          · rw [if_neg hlt] at h2
            exact Or.inl h2
    · exact Or.inr ⟨row, la, lo, List.mem_cons_of_mem p hm, hla, hlo, hcs⟩

/- ------------------------------------------------------------------ -/
/- Last-wins characterization of repeated dictionary assignment.      -/
/- ------------------------------------------------------------------ -/

theorem foldl_dset_assign_dfind? {α β : Type} (g : β → α) (l : List (String × β))
    (acc : SDict α) (k : String) :
    dfind? (l.foldl (fun a p => dset a p.1 (g p.2)) acc) k =
      match l.reverse.find? (fun p => p.1 = k) with
      | some p => some (g p.2)
      | none => dfind? acc k := by
  induction l generalizing acc with
  | nil => rfl
  | cons p rest ih =>
    rw [List.foldl_cons, ih, List.reverse_cons, List.find?_append]
    cases hr : rest.reverse.find? (fun q => decide (q.1 = k)) with
    | some q => rfl
    | none =>
      by_cases hp : p.1 = k
      · simp [List.find?, hp, dfind?_dset]
      · have h2 : ¬ k = p.1 := fun hh => hp hh.symm
        simp [List.find?, hp, dfind?_dset, h2]

theorem nodup_keys_foldl_dset {α β : Type} (g : β → α) (l : List (String × β))
    (acc : SDict α) (h : (acc.map Prod.fst).Nodup) :
    ((l.foldl (fun a p => dset a p.1 (g p.2)) acc).map Prod.fst).Nodup := by
  induction l generalizing acc with
  | nil => exact h
  | cons p rest ih =>
    rw [List.foldl_cons]
    exact ih _ (nodup_keys_dset p.1 (g p.2) h)

/- ------------------------------------------------------------------ -/
/- Sample data shared by witness instances.                           -/
/- ------------------------------------------------------------------ -/

/-- A small single-agency sample dataset with one stop served by one
trip of route r, whose short name is 12. -/
def sampleDs : Dataset :=
  { stops := [[("stop_id","s"),("stop_lat","35.1"),("stop_lon","33.4"),("stop_name","Main")]]
    routes := [[("route_id","r"),("route_short_name","12")]]
    trips := [[("trip_id","t"),("route_id","r")]]
    stop_times := [[("stop_id","s"),("trip_id","t")]]
    source_filename := "agency.zip" }

/-- The Feature emitted for the sample dataset when route enrichment is
skipped. -/
def sampleSkipFeature : Feature :=
  { id := "AG_s", geometry_type := "Point"
    coordinates := [.finite false 334 (-1), .finite false 351 (-1)]
    properties := { stop_id := "AG_s", orig_stop_id := some "s", agency := some "AG",
                    name := "Main", code := "", location_type := 0, parent_station := "",
                    routes_serving := [] } }

/- ------------------------------------------------------------------ -/
/- Claim theorems.                                                    -/
/- ------------------------------------------------------------------ -/

/-- The emitted document with the generation timestamp cleared, for
comparing two runs up to the date_generated field. -/
def stripDate (g : GeoJson) : GeoJson :=
  { g with metadata := { g.metadata with date_generated := "" } }

/-- C7: determinism and idempotence. Every pipeline stage is a pure
function of the loaded tables and the configuration, and the wall-clock
input influences only the date_generated metadata field, so two runs on
identical inputs produce identical documents apart from that field. -/
theorem C7_determinism (datasets : SDict Dataset) (pfx skipEnrich : Bool) (t1 t2 : String) :
    stripDate (pipelineRun datasets pfx skipEnrich t1) =
      stripDate (pipelineRun datasets pfx skipEnrich t2) := rfl

/-- C6: skip-enrichment mode. With enrichment disabled the join result
handed to the feature assembler is the empty dictionary, so every
emitted Feature has an empty routes_serving list, whatever the
stop_times, trips and routes tables contain. -/
theorem C6_skip_enrichment (datasets : SDict Dataset) (pfx : Bool) (now : String) :
    ∀ f ∈ (pipelineRun datasets pfx true now).features,
      f.properties.routes_serving = [] := by
  intro f hf
  simp only [pipelineRun, create_geojson, if_pos rfl] at hf
  rcases List.mem_map.mp hf with ⟨p, hp, hfe⟩
  rw [← hfe]
  simp [mkFeature, dfind?]

/-- Witness for C6 at the sample dataset: the skip-enrichment run emits
a feature whose routes_serving is empty even though stop_times links
the stop to a route. -/
theorem C6_skip_enrichment_witness :
    sampleSkipFeature ∈ (pipelineRun [("AG", sampleDs)] true true "T").features ∧
      sampleSkipFeature.properties.routes_serving = [] :=
  ⟨by decide, C6_skip_enrichment [("AG", sampleDs)] true "T" sampleSkipFeature (by decide)⟩

/-- C9: prefixed harmonized ids are plain string concatenation, so two
different (agency, stop id) pairs can harmonize to the same id, in
which case first-seen-wins silently drops the later row even in
prefixed mode: agency A with stop B_C and agency A_B with stop C both
map to A_B_C, and only the first-loaded row survives. -/
theorem C9_concat_collision :
    harmonizedId true "A" "B_C" = harmonizedId true "A_B" "C" ∧
    (harmonize_and_consolidate
        [("A", { stops := [[("stop_id","B_C"),("stop_name","first")]], routes := [],
                 trips := [], stop_times := [], source_filename := "a.zip" }),
         ("A_B", { stops := [[("stop_id","C"),("stop_name","second")]], routes := [],
                   trips := [], stop_times := [], source_filename := "b.zip" })]
        true).1.map (fun p => (p.1, rowGet? p.2 "stop_name", rowGet? p.2 "_agency")) =
      [("A_B_C", some "first", some "A")] := by
  constructor
  · rfl
  · decide

/-- C10: datasets are stored in a dictionary keyed by the derived
agency code, so the entry for a code is exactly the extraction of the
last archive bearing that code; an earlier archive with the same code
is completely replaced and contributes none of its four tables. The
key list stays duplicate-free, so no other entry can carry its data. -/
theorem C10_duplicate_agency_code (archives : List (String × ZipArchive)) (ag : String) :
    dfind? (extract_relevant_tables archives) ag =
      (archives.reverse.find? (fun p => p.1 = ag)).map (fun p => extractDataset p.2) ∧
    ((extract_relevant_tables archives).map Prod.fst).Nodup := by
  constructor
  · rw [extract_relevant_tables, foldl_dset_assign_dfind?]
    cases archives.reverse.find? (fun p => p.1 = ag) <;> rfl
  · exact nodup_keys_foldl_dset _ _ _ (by simp)

theorem find?_reverse_of_nodup {β : Type} {l : List (String × β)} {ag : String} {z : β}
    (hmem : (ag, z) ∈ l) (hnd : (l.map Prod.fst).Nodup) :
    l.reverse.find? (fun p => p.1 = ag) = some (ag, z) := by
  induction l with
  | nil => simp at hmem
  | cons p rest ih =>
    have hnd2 : (rest.map Prod.fst).Nodup := (List.nodup_cons.mp (by simpa using hnd)).2
    have hnm : p.1 ∉ rest.map Prod.fst := (List.nodup_cons.mp (by simpa using hnd)).1
    rw [List.reverse_cons, List.find?_append]
    rcases List.mem_cons.mp hmem with h | h
    · have hrest : rest.reverse.find? (fun p => p.1 = ag) = none := by
        rw [List.find?_eq_none]
        intro q hq
        have hq2 : q ∈ rest := List.mem_reverse.mp hq
        have : q.1 ∈ rest.map Prod.fst := List.mem_map_of_mem Prod.fst hq2
        simp only [decide_eq_true_eq]
        intro hq1
        rw [← h] at hnm
        exact hnm (hq1 ▸ this)
      rw [hrest, Option.none_or, ← h]
      simp [List.find?]
    · rw [ih h hnd2]
      rfl

theorem read_csv_none_of_no_match {z : ZipArchive} {m : String}
    (h : z.names.all (fun n => !memberMatches m n)) : read_csv_from_zip z m = none := by
  unfold read_csv_from_zip
  cases hf : z.names.filter (fun n => memberMatches m n) with
  | nil => rfl
  | cons c cs =>
    exfalso
    have hc : c ∈ z.names.filter (fun n => memberMatches m n) := by rw [hf]; simp
    have h1 := (List.mem_filter.mp hc).2
    have h2 := List.all_eq_true.mp h (c) (List.mem_filter.mp hc).1
    rw [h1] at h2
    simp at h2

/-- C8: missing-table recovery. With distinct agency codes, every
archive contributes exactly one dataset entry, and each of the four
expected tables with no case-insensitive suffix match among the
archive's member names is loaded as the empty table; the archive is
still processed into the dataset dictionary rather than failing. -/
theorem C8_missing_table_recovery (archives : List (String × ZipArchive))
    (ag : String) (z : ZipArchive) (hmem : (ag, z) ∈ archives)
    (hnd : (archives.map Prod.fst).Nodup) :
    dfind? (extract_relevant_tables archives) ag = some (extractDataset z) ∧
    (z.names.all (fun n => !memberMatches "stops.txt" n) → (extractDataset z).stops = []) ∧
    (z.names.all (fun n => !memberMatches "routes.txt" n) → (extractDataset z).routes = []) ∧
    (z.names.all (fun n => !memberMatches "trips.txt" n) → (extractDataset z).trips = []) ∧
    (z.names.all (fun n => !memberMatches "stop_times.txt" n) →
      (extractDataset z).stop_times = []) := by
  refine ⟨?_, ?_, ?_, ?_, ?_⟩
  · rw [extract_relevant_tables, foldl_dset_assign_dfind?, find?_reverse_of_nodup hmem hnd]
  · intro h
    simp [extractDataset, read_csv_none_of_no_match h]
  · intro h
    simp [extractDataset, read_csv_none_of_no_match h]
  · intro h
    simp [extractDataset, read_csv_none_of_no_match h]
  · intro h
    simp [extractDataset, read_csv_none_of_no_match h]

/-- A sample archive whose only members are routes and agency tables:
stops, trips and stop_times are all absent. -/
def sampleZip : ZipArchive :=
  { fname := "e.zip", names := ["agency.txt", "ROUTES.TXT"],
    tables := fun _ => [[("route_id","r")]] }

/-- Witness for C8 at the sample archive: the archive is processed, its
routes table is read, and the three absent tables are empty. -/
theorem C8_missing_table_recovery_witness :
    (("E", sampleZip) ∈ [("E", sampleZip)] ∧
      (([("E", sampleZip)] : List (String × ZipArchive)).map Prod.fst).Nodup) ∧
    (dfind? (extract_relevant_tables [("E", sampleZip)]) "E" = some (extractDataset sampleZip) ∧
      (extractDataset sampleZip).stops = [] ∧ (extractDataset sampleZip).trips = [] ∧
      (extractDataset sampleZip).stop_times = [] ∧
      (extractDataset sampleZip).routes = [[("route_id","r")]]) := by
  have h := C8_missing_table_recovery [("E", sampleZip)] "E" sampleZip
    (List.mem_cons_self _ _) (by decide)
  exact ⟨⟨List.mem_cons_self _ _, by decide⟩,
    h.1, h.2.1 (by decide), h.2.2.2.1 (by decide), h.2.2.2.2 (by decide), by decide⟩

/-- A consolidated mapping with one row whose latitude field is the
string inf, which Python float() converts to an infinite value. -/
def infLatCons : SDict Row :=
  [("A_1", [("stop_id","1"),("stop_lat","inf"),("stop_lon","33.0")])]

/-- Counterexample to C2 as stated: float() accepts the spelling inf,
so a row whose latitude is non-finite is NOT dropped - it survives the
filter with an infinite stop_lat, refuting the requirement that kept
rows have finite coordinates. -/
theorem C2_counterexample :
    parseFloat "inf" = some (.inf false) ∧
    (PyFloat.inf false).isFinite = false ∧
    dfind? (filter_and_clean_stops infLatCons) "A_1" =
      some { stop_id := "A_1", orig_stop_id := none, agency := none, stop_name := "",
             stop_code := "", location_type := 0, parent_station := "",
             stop_lat := .inf false, stop_lon := .finite false 330 (-1) } := by
  refine ⟨rfl, rfl, ?_⟩
  decide

/-- C2 (amended): a consolidated row survives into the CleanStop
mapping only if both its latitude field (stop_lat, falling back to lat)
and its longitude field (stop_lon, falling back to lon) convert under
Python float() - which also accepts infinities and NaN, so finiteness
is not required - and a row whose latitude or longitude is missing or
non-numeric is dropped entirely. -/
theorem C2_coordinates_must_parse {cons : SDict Row} {sid : String} {row : Row}
    (hnd : (cons.map Prod.fst).Nodup) (hrow : dfind? cons sid = some row) :
    ((dfind? (filter_and_clean_stops cons) sid).isSome →
      (parseFloat (latStr row)).isSome ∧ (parseFloat (lonStr row)).isSome) ∧
    ((parseFloat (latStr row) = none ∨ parseFloat (lonStr row) = none) →
      dfind? (filter_and_clean_stops cons) sid = none) := by
  have hch := foldl_filterStep_dfind? cons [] sid hnd
  rw [hrow] at hch
  dsimp only at hch
  constructor
  · intro hs
    rw [show filter_and_clean_stops cons = cons.foldl filterStep [] from rfl, hch] at hs
    rcases hA : parseFloat (latStr row) with _ | la <;> rw [hA] at hs
    · simp [dfind?] at hs
    · rcases hB : parseFloat (lonStr row) with _ | lo <;> rw [hB] at hs
      · simp [dfind?] at hs
      · exact ⟨by simp [hA], by simp [hB]⟩
  · intro hno
    rw [show filter_and_clean_stops cons = cons.foldl filterStep [] from rfl, hch]
    rcases hno with hno | hno
    · rw [hno]
      rfl
    · rw [hno]
      rcases hA : parseFloat (latStr row) with _ | la <;> rfl

/-- A consolidated mapping with one row whose latitude is the
non-numeric string N/A. -/
def badLatCons : SDict Row :=
  [("A_2", [("stop_id","2"),("stop_lat","N/A"),("stop_lon","33.0")])]

/-- Witness for the amended C2: the row with non-numeric latitude is
dropped entirely. -/
theorem C2_coordinates_must_parse_witness :
    ((badLatCons.map Prod.fst).Nodup ∧
      dfind? badLatCons "A_2" =
        some ([("stop_id","2"),("stop_lat","N/A"),("stop_lon","33.0")] : Row) ∧
      parseFloat (latStr ([("stop_id","2"),("stop_lat","N/A"),("stop_lon","33.0")] : Row)) =
        none) ∧
    dfind? (filter_and_clean_stops badLatCons) "A_2" = none := by
  refine ⟨⟨by decide, by decide, by decide⟩, ?_⟩
  exact (@C2_coordinates_must_parse badLatCons "A_2"
    [("stop_id","2"),("stop_lat","N/A"),("stop_lon","33.0")]
    (by decide) (by decide)).2 (Or.inl (by decide))

theorem ltNorm_eq_zero_of_default {row : Row}
    (h : pyStrip ((rowGet? row "location_type").getD "") = "" ∨
         parseInt (pyStrip ((rowGet? row "location_type").getD "")) = none) :
    ltNorm row = 0 := by
  rcases h with h | h
  · simp only [ltNorm]
    rw [h]
    decide
  · by_cases h0 : pyStrip ((rowGet? row "location_type").getD "") = ""
    · simp only [ltNorm]
      rw [h0]
      decide
    · simp only [ltNorm]
      rw [if_neg h0, h]

/-- C4: location_type policy. A missing or empty location_type, and one
that int() rejects, normalize to 0 and the row is kept whenever its
coordinates convert; every surviving CleanStop has location_type 0 or
1; and a row whose location_type parses to any other integer is
dropped even when its coordinates are valid. -/
theorem C4_location_type_policy {cons : SDict Row} {sid : String} {row : Row}
    (hnd : (cons.map Prod.fst).Nodup) (hrow : dfind? cons sid = some row) :
    ((pyStrip ((rowGet? row "location_type").getD "") = "" ∨
      parseInt (pyStrip ((rowGet? row "location_type").getD "")) = none) → ltNorm row = 0) ∧
    (∀ cs, dfind? (filter_and_clean_stops cons) sid = some cs →
      cs.location_type = 0 ∨ cs.location_type = 1) ∧
    (∀ n : ℤ, parseInt (pyStrip ((rowGet? row "location_type").getD "")) = some n →
      n ≠ 0 → n ≠ 1 → dfind? (filter_and_clean_stops cons) sid = none) ∧
    ((parseFloat (latStr row)).isSome → (parseFloat (lonStr row)).isSome →
      (ltNorm row = 0 ∨ ltNorm row = 1) →
      ∃ cs, dfind? (filter_and_clean_stops cons) sid = some cs ∧
        cs.location_type = ltNorm row) := by
  have hch := foldl_filterStep_dfind? cons [] sid hnd
  rw [hrow] at hch
  dsimp only at hch
  have hfc : filter_and_clean_stops cons = cons.foldl filterStep [] := rfl
  refine ⟨ltNorm_eq_zero_of_default, ?_, ?_, ?_⟩
  · intro cs hcs
    rw [hfc, hch] at hcs
    rcases hA : parseFloat (latStr row) with _ | la <;> rw [hA] at hcs
    · simp [dfind?] at hcs
    · rcases hB : parseFloat (lonStr row) with _ | lo <;> rw [hB] at hcs
      · simp [dfind?] at hcs
      · dsimp only at hcs
        by_cases hlt : ltNorm row = 0 ∨ ltNorm row = 1
        · rw [if_pos hlt] at hcs
          simp only [Option.some.injEq] at hcs
          rw [← hcs]
          exact hlt
        · rw [if_neg hlt] at hcs
          simp [dfind?] at hcs
  · intro n hn h0 h1
    have hne : pyStrip ((rowGet? row "location_type").getD "") ≠ "" := by
      intro h2
      rw [h2] at hn
      rw [show parseInt "" = none from by decide] at hn
      simp at hn
    have hlt : ltNorm row = n := by
      simp only [ltNorm]
      rw [if_neg hne, hn]
    have hnot : ¬ (ltNorm row = 0 ∨ ltNorm row = 1) := by
      rw [hlt]
      rintro (h | h)
      · exact h0 h
      · exact h1 h
    rw [hfc, hch]
    rcases hA : parseFloat (latStr row) with _ | la
    · rfl
    · rcases hB : parseFloat (lonStr row) with _ | lo
      · rfl
      · dsimp only
        rw [if_neg hnot]
        rfl
  · intro hA hB hlt
    rcases Option.isSome_iff_exists.mp hA with ⟨la, hla⟩
    rcases Option.isSome_iff_exists.mp hB with ⟨lo, hlo⟩
    refine ⟨mkClean sid row la lo, ?_, rfl⟩
    rw [hfc, hch, hla, hlo]
    dsimp only
    rw [if_pos hlt]

/-- A consolidated row whose location_type is the non-integer string
abc, with valid coordinates. -/
def abcLtRow : Row := [("stop_id","9"),("stop_lat","35"),("stop_lon","33"),("location_type","abc")]

/-- Witness for C4: a row with unparseable location_type abc and valid
coordinates is kept with location_type 0. -/
theorem C4_location_type_policy_witness :
    (([("A_9", abcLtRow)].map Prod.fst).Nodup ∧
      dfind? [("A_9", abcLtRow)] "A_9" = some abcLtRow ∧
      parseInt (pyStrip ((rowGet? abcLtRow "location_type").getD "")) = none) ∧
    (ltNorm abcLtRow = 0 ∧
      ∃ cs, dfind? (filter_and_clean_stops [("A_9", abcLtRow)]) "A_9" = some cs ∧
        cs.location_type = ltNorm abcLtRow) := by
  have h := @C4_location_type_policy [("A_9", abcLtRow)] "A_9" abcLtRow (by decide) (by decide)
  exact ⟨⟨by decide, by decide, by decide⟩,
    h.1 (Or.inr (by decide)), h.2.2.2 (by decide) (by decide) (Or.inl (h.1 (Or.inr (by decide))))⟩

theorem rowGet?_decorate_ne (ag sid : String) (r : Row) (k : String)
    (h1 : k ≠ "_agency") (h2 : k ≠ "_orig_stop_id") :
    rowGet? (decorate ag sid r) k = rowGet? r k := by
  unfold decorate
  rw [rowGet?_rowSet_ne _ _ _ _ h1, rowGet?_rowSet_ne _ _ _ _ h2]

theorem latStr_decorate (ag sid : String) (r : Row) :
    latStr (decorate ag sid r) = latStr r := by
  unfold latStr
  rw [rowGet?_decorate_ne _ _ _ _ (by decide) (by decide),
    rowGet?_decorate_ne _ _ _ _ (by decide) (by decide)]

theorem lonStr_decorate (ag sid : String) (r : Row) :
    lonStr (decorate ag sid r) = lonStr r := by
  unfold lonStr
  rw [rowGet?_decorate_ne _ _ _ _ (by decide) (by decide),
    rowGet?_decorate_ne _ _ _ _ (by decide) (by decide)]

/-- C5: coordinate order and round-trip. Every emitted Feature has
Point geometry whose coordinates pair is longitude first, and the pair
is exactly the float() conversion of the longitude and latitude fields
(with the documented stop_lon/lon and stop_lat/lat fallbacks) of the
matching original stops row: the row of the agency whose harmonized
stop id is the Feature's id, recorded verbatim in the Feature's
orig_stop_id and agency properties. -/
theorem C5_coordinate_roundtrip (datasets : SDict Dataset) (pfx skipEnrich : Bool)
    (now : String) (f : Feature)
    (hf : f ∈ (pipelineRun datasets pfx skipEnrich now).features) :
    f.geometry_type = "Point" ∧
    ∃ ag ds row la lo, (ag, ds) ∈ datasets ∧ row ∈ ds.stops ∧
      f.id = harmonizedId pfx ag (rget row "stop_id") ∧
      f.properties.orig_stop_id = some (rget row "stop_id") ∧
      f.properties.agency = some ag ∧
      parseFloat (latStr row) = some la ∧ parseFloat (lonStr row) = some lo ∧
      f.coordinates = [lo, la] := by
  simp only [pipelineRun, create_geojson] at hf
  rcases List.mem_map.mp hf with ⟨p, hp, hfe⟩
  obtain ⟨sid, cs⟩ := p
  have hp2 : (sid, cs) ∈ (harmonize_and_consolidate datasets pfx).1.foldl filterStep [] := hp
  rcases mem_foldl_filterStep hp2 with h2 | ⟨row, la, lo, hm, hla, hlo, hcs⟩
  · simp at h2
  · rw [harmonize_eq_consPairs] at hm
    rcases mem_foldl_consStep hm with h3 | ⟨q, hq, hne, hk, hdec⟩
    · simp at h3
    · obtain ⟨qa, qr⟩ := q
      rcases mem_consPairs.mp hq with ⟨ds, hds, hrow⟩
      rw [hdec] at hla hlo
      rw [latStr_decorate] at hla
      rw [lonStr_decorate] at hlo
      refine ⟨by rw [← hfe]; rfl, qa, ds, qr, la, lo, hds, hrow, ?_, ?_, ?_, hla, hlo, ?_⟩
      · rw [← hfe]
        show sid = harmonizedId pfx qa (rget qr "stop_id")
        exact hk
      · rw [← hfe]
        show cs.orig_stop_id = some (rget qr "stop_id")
        rw [hcs]
        show rowGet? row "_orig_stop_id" = some (rget qr "stop_id")
        rw [hdec]
        unfold decorate
        rw [rowGet?_rowSet_ne _ _ _ _ (by decide), rowGet?_rowSet_self]
      · rw [← hfe]
        show cs.agency = some qa
        rw [hcs]
        show rowGet? row "_agency" = some qa
        rw [hdec]
        unfold decorate
        rw [rowGet?_rowSet_self]
      · rw [← hfe]
        show [cs.stop_lon, cs.stop_lat] = [lo, la]
        rw [hcs]
        rfl

/-- The Feature emitted for the sample dataset in the enriched run. -/
def sampleFeature : Feature :=
  { id := "AG_s", geometry_type := "Point"
    coordinates := [.finite false 334 (-1), .finite false 351 (-1)]
    properties := { stop_id := "AG_s", orig_stop_id := some "s", agency := some "AG",
                    name := "Main", code := "", location_type := 0, parent_station := "",
                    routes_serving := ["12"] } }

/-- Witness for C5 at the sample dataset. -/
theorem C5_coordinate_roundtrip_witness :
    sampleFeature ∈ (pipelineRun [("AG", sampleDs)] true false "T").features ∧
    (sampleFeature.geometry_type = "Point" ∧
      ∃ ag ds row la lo, (ag, ds) ∈ [("AG", sampleDs)] ∧ row ∈ ds.stops ∧
        sampleFeature.id = harmonizedId true ag (rget row "stop_id") ∧
        sampleFeature.properties.orig_stop_id = some (rget row "stop_id") ∧
        sampleFeature.properties.agency = some ag ∧
        parseFloat (latStr row) = some la ∧ parseFloat (lonStr row) = some lo ∧
        sampleFeature.coordinates = [lo, la]) :=
  ⟨by decide, C5_coordinate_roundtrip [("AG", sampleDs)] true false "T" sampleFeature (by decide)⟩

theorem firstCons_append (pfx : Bool) (l1 l2 : List (String × Row)) (k : String) :
    firstCons pfx (l1 ++ l2) k = (firstCons pfx l1 k).or (firstCons pfx l2 k) := by
  induction l1 with
  | nil => simp [firstCons]
  | cons q rest ih =>
    by_cases h : rget q.2 "stop_id" ≠ "" ∧ harmonizedId pfx q.1 (rget q.2 "stop_id") = k
    · simp [firstCons, h]
    · simp [firstCons, h, ih]

theorem firstCons_map_eq_none (pfx : Bool) (ag : String) (rows : List Row) (k : String)
    (h : ∀ r ∈ rows, rget r "stop_id" = "" ∨ harmonizedId pfx ag (rget r "stop_id") ≠ k) :
    firstCons pfx (rows.map (fun r => (ag, r))) k = none := by
  induction rows with
  | nil => rfl
  | cons r rest ih =>
    have hr := h r (List.mem_cons_self r rest)
    have hcond : ¬ (rget r "stop_id" ≠ "" ∧ harmonizedId pfx ag (rget r "stop_id") = k) := by
      rcases hr with hr | hr
      · exact fun hc => hc.1 hr
      · exact fun hc => hr hc.2
    simp only [List.map_cons, firstCons, if_neg hcond]
    exact ih (fun r2 h2 => h r2 (List.mem_cons_of_mem r h2))

theorem firstCons_map_of_mem (pfx : Bool) (ag S : String) (rows : List Row)
    (hS : S ≠ "") (hex : ∃ r ∈ rows, rget r "stop_id" = S)
    (hinj : ∀ s : String, harmonizedId pfx ag s = harmonizedId pfx ag S → s = S) :
    ∃ r0, firstCons pfx (rows.map (fun r => (ag, r))) (harmonizedId pfx ag S) = some (ag, r0) ∧
      r0 ∈ rows ∧ rget r0 "stop_id" = S := by
  induction rows with
  | nil => simp at hex
  | cons r rest ih =>
    by_cases hcond : rget r "stop_id" ≠ "" ∧
        harmonizedId pfx ag (rget r "stop_id") = harmonizedId pfx ag S
    · refine ⟨r, ?_, List.mem_cons_self r rest, hinj _ hcond.2⟩
      simp only [List.map_cons, firstCons, if_pos hcond]
    · have hrne : rget r "stop_id" ≠ S := by
        intro he
        exact hcond ⟨by rw [he]; exact hS, by rw [he]⟩
      have hex2 : ∃ r2 ∈ rest, rget r2 "stop_id" = S := by
        rcases hex with ⟨r2, hr2, he⟩
        rcases List.mem_cons.mp hr2 with h | h
        · exact absurd (h ▸ he) hrne
        · exact ⟨r2, h, he⟩
      rcases ih hex2 with ⟨r0, h1, h2, h3⟩
      refine ⟨r0, ?_, List.mem_cons_of_mem r h2, h3⟩
      simp only [List.map_cons, firstCons, if_neg hcond]
      exact h1

/-- C3 (amended): identifier harmonization across two agencies sharing
a raw stop id. Prefixing always produces two distinct harmonized ids
A_S and B_S, and the A_S entry always carries an agency-A row with
original id S; the B_S entry carries an agency-B row with original id S
provided no agency-A stop row harmonizes to the same string B_S (plain
concatenation makes such cross collisions possible, and first-seen-wins
then drops the agency-B row). In unprefixed mode both agencies map to
the single id S and the first-loaded agency's row survives. -/
theorem C3_harmonization_injective (A B S : String) (dsA dsB : Dataset)
    (hAB : A ≠ B) (hS : S ≠ "")
    (hSA : ∃ r ∈ dsA.stops, rget r "stop_id" = S)
    (hSB : ∃ r ∈ dsB.stops, rget r "stop_id" = S) :
    harmonizedId true A S ≠ harmonizedId true B S ∧
    (∃ rowA ∈ dsA.stops, rget rowA "stop_id" = S ∧
      dfind? (harmonize_and_consolidate [(A, dsA), (B, dsB)] true).1 (harmonizedId true A S) =
        some (decorate A S rowA)) ∧
    ((∀ r ∈ dsA.stops, harmonizedId true A (rget r "stop_id") ≠ harmonizedId true B S) →
      ∃ rowB ∈ dsB.stops, rget rowB "stop_id" = S ∧
        dfind? (harmonize_and_consolidate [(A, dsA), (B, dsB)] true).1 (harmonizedId true B S) =
          some (decorate B S rowB)) ∧
    (∃ rowA ∈ dsA.stops, rget rowA "stop_id" = S ∧
      dfind? (harmonize_and_consolidate [(A, dsA), (B, dsB)] false).1 S =
        some (decorate A S rowA)) := by
  have hpairs : consPairs [(A, dsA), (B, dsB)] =
      dsA.stops.map (fun r => (A, r)) ++ dsB.stops.map (fun r => (B, r)) := by
    simp [consPairs]
  have hmain : ∀ pfx k, dfind? (harmonize_and_consolidate [(A, dsA), (B, dsB)] pfx).1 k =
      (firstCons pfx (consPairs [(A, dsA), (B, dsB)]) k).map
        (fun q => decorate q.1 (rget q.2 "stop_id") q.2) := by
    intro pfx k
    rw [harmonize_eq_consPairs, foldl_consStep_dfind?]
    rfl
  refine ⟨fun h => hAB (harmonizedId_inj_agency h), ?_, ?_, ?_⟩
  · rcases firstCons_map_of_mem true A S dsA.stops hS hSA
      (fun s h => harmonizedId_inj_sid h) with ⟨r0, hfc, hmem, hrg⟩
    refine ⟨r0, hmem, hrg, ?_⟩
    rw [hmain, hpairs, firstCons_append, hfc]
    show some (decorate A (rget r0 "stop_id") r0) = some (decorate A S r0)
    rw [hrg]
  · intro hcoll
    have hnone : firstCons true (dsA.stops.map (fun r => (A, r))) (harmonizedId true B S) =
        none :=
      firstCons_map_eq_none true A dsA.stops _ (fun r hr => Or.inr (hcoll r hr))
    rcases firstCons_map_of_mem true B S dsB.stops hS hSB
      (fun s h => harmonizedId_inj_sid h) with ⟨r0, hfc, hmem, hrg⟩
    refine ⟨r0, hmem, hrg, ?_⟩
    rw [hmain, hpairs, firstCons_append, hnone, hfc]
    show some (decorate B (rget r0 "stop_id") r0) = some (decorate B S r0)
    rw [hrg]
  · rcases firstCons_map_of_mem false A S dsA.stops hS hSA
      (fun s h => by simpa [harmonizedId] using h) with ⟨r0, hfc, hmem, hrg⟩
    have hfc2 : firstCons false (dsA.stops.map (fun r => (A, r))) S = some (A, r0) := hfc
    refine ⟨r0, hmem, hrg, ?_⟩
    rw [hmain, hpairs, firstCons_append, hfc2]
    show some (decorate A (rget r0 "stop_id") r0) = some (decorate A S r0)
    rw [hrg]

/-- The first agency of the collision counterexample: code X, stops
Y_Z and Z. -/
def collideDsA : Dataset :=
  { stops := [[("stop_id","Y_Z")], [("stop_id","Z")]], routes := [], trips := [],
    stop_times := [], source_filename := "x.zip" }

/-- The second agency of the collision counterexample: code X_Y,
stop Z. -/
def collideDsB : Dataset :=
  { stops := [[("stop_id","Z")]], routes := [], trips := [],
    stop_times := [], source_filename := "y.zip" }

/-- Counterexample to C3 as stated: agencies X and X_Y both contain
stop Z, the two prefixed ids X_Z and X_Y_Z are distinct, yet the
agency X_Y row is NOT retained - every consolidated entry carries
agency X data, because the X row Y_Z harmonizes to the same string
X_Y_Z first. -/
theorem C3_counterexample :
    ((∃ r ∈ collideDsA.stops, rget r "stop_id" = "Z") ∧
      (∃ r ∈ collideDsB.stops, rget r "stop_id" = "Z") ∧ ("X" : String) ≠ "X_Y") ∧
    harmonizedId true "X" "Z" ≠ harmonizedId true "X_Y" "Z" ∧
    (harmonize_and_consolidate [("X", collideDsA), ("X_Y", collideDsB)] true).1.map
      (fun p => (p.1, rowGet? p.2 "_agency")) = [("X_Y_Z", some "X"), ("X_Z", some "X")] := by
  refine ⟨⟨?_, ?_, ?_⟩, ?_, ?_⟩ <;> decide

/-- First witness agency data: one stop s. -/
def wDsA : Dataset :=
  { stops := [[("stop_id","s")]], routes := [], trips := [],
    stop_times := [], source_filename := "wa.zip" }

/-- Second witness agency data: the same stop id s. -/
def wDsB : Dataset :=
  { stops := [[("stop_id","s")]], routes := [], trips := [],
    stop_times := [], source_filename := "wb.zip" }

/-- Witness for the amended C3 at two one-stop agencies AGA and AGB. -/
theorem C3_harmonization_injective_witness :
    (("AGA" : String) ≠ "AGB" ∧ ("s" : String) ≠ "" ∧
      (∃ r ∈ wDsA.stops, rget r "stop_id" = "s") ∧
      (∃ r ∈ wDsB.stops, rget r "stop_id" = "s") ∧
      (∀ r ∈ wDsA.stops, harmonizedId true "AGA" (rget r "stop_id") ≠
        harmonizedId true "AGB" "s")) ∧
    (harmonizedId true "AGA" "s" ≠ harmonizedId true "AGB" "s" ∧
      (∃ rowA ∈ wDsA.stops, rget rowA "stop_id" = "s" ∧
        dfind? (harmonize_and_consolidate [("AGA", wDsA), ("AGB", wDsB)] true).1
          (harmonizedId true "AGA" "s") = some (decorate "AGA" "s" rowA)) ∧
      (∃ rowB ∈ wDsB.stops, rget rowB "stop_id" = "s" ∧
        dfind? (harmonize_and_consolidate [("AGA", wDsA), ("AGB", wDsB)] true).1
          (harmonizedId true "AGB" "s") = some (decorate "AGB" "s" rowB)) ∧
      (∃ rowA ∈ wDsA.stops, rget rowA "stop_id" = "s" ∧
        dfind? (harmonize_and_consolidate [("AGA", wDsA), ("AGB", wDsB)] false).1 "s" =
          some (decorate "AGA" "s" rowA))) := by
  have h := C3_harmonization_injective "AGA" "AGB" "s" wDsA wDsB
    (by decide) (by decide) (by decide) (by decide)
  exact ⟨⟨by decide, by decide, by decide, by decide, by decide⟩,
    h.1, h.2.1, h.2.2.1 (by decide), h.2.2.2⟩

theorem build_route_mappings_single (ag : String) (ds : Dataset) :
    build_route_mappings [(ag, ds)] true =
      (ds.routes.foldl (keyedStep (routeEntry ag (ag ++ "_"))) [],
       ds.trips.foldl (keyedStep (tripEntry (ag ++ "_"))) []) := rfl

theorem build_stop_to_routes_single (ag : String) (ds : Dataset) (t2r : SDict String) :
    build_stop_to_routes [(ag, ds)] t2r true =
      (ds.stop_times.foldl (stStep true (ag ++ "_") t2r) []).map
        (fun p => (p.1, sortStrings p.2)) := rfl

theorem tripEntry_eq (agPre : String) (t : Row)
    (h1 : rget t "trip_id" ≠ "") (h2 : rget t "route_id" ≠ "") :
    tripEntry agPre t = some (agPre ++ rget t "trip_id", agPre ++ rget t "route_id") := by
  simp [tripEntry, h1, h2]

theorem routeEntry_eq (ag agPre : String) (r : Row) (h : rget r "route_id" ≠ "") :
    routeEntry ag agPre r = some (agPre ++ rget r "route_id",
      { route_id := agPre ++ rget r "route_id"
        route_short_name :=
          pyOrStr (rowGet? r "route_short_name") (pyOrStr (rowGet? r "route_id") "")
        route_long_name := pyOrStr (rowGet? r "route_long_name") ""
        agency := ag }) := by
  simp [routeEntry, h]

theorem t2r_lookup_of_consistent (ag : String) (trips : List Row) (T R : String)
    (hT : T ≠ "") (hR : R ≠ "")
    (hall : ∀ t ∈ trips, rget t "trip_id" = T → rget t "route_id" = R)
    (hex : ∃ t ∈ trips, rget t "trip_id" = T) :
    dfind? (trips.foldl (keyedStep (tripEntry (ag ++ "_"))) []) (ag ++ "_" ++ T) =
      some (ag ++ "_" ++ R) := by
  rw [foldl_keyedStep_dfind?]
  have hcv : ∀ t ∈ trips, ∀ v, tripEntry (ag ++ "_") t = some (ag ++ "_" ++ T, v) →
      v = ag ++ "_" ++ R := by
    intro t ht v hv
    by_cases h1 : rget t "trip_id" = ""
    · simp [tripEntry, h1] at hv
    · by_cases h2 : rget t "route_id" = ""
      · simp [tripEntry, h1, h2] at hv
      · rw [tripEntry_eq _ _ h1 h2] at hv
        simp only [Option.some.injEq, Prod.mk.injEq] at hv
        have htid : rget t "trip_id" = T := string_append_left_cancel hv.1
        rw [← hv.2, hall t ht htid]
  have hce : ∃ t ∈ trips, ∃ v, tripEntry (ag ++ "_") t = some (ag ++ "_" ++ T, v) := by
    rcases hex with ⟨t, ht, he⟩
    have hrid := hall t ht he
    refine ⟨t, ht, (ag ++ "_") ++ R, ?_⟩
    rw [tripEntry_eq _ _ (by rw [he]; exact hT) (by rw [hrid]; exact hR), he, hrid]
  rw [lastVal_const hcv hce]

theorem route_info_lookup_of_consistent (ag : String) (routes : List Row) (R sn : String)
    (hR : R ≠ "")
    (hall : ∀ r ∈ routes, rget r "route_id" = R →
      pyOrStr (rowGet? r "route_short_name") (pyOrStr (rowGet? r "route_id") "") = sn)
    (hex : ∃ r ∈ routes, rget r "route_id" = R) :
    ∃ meta, dfind? (routes.foldl (keyedStep (routeEntry ag (ag ++ "_"))) []) (ag ++ "_" ++ R) =
      some meta ∧ meta.route_short_name = sn := by
  rw [foldl_keyedStep_dfind?]
  have hsome : (lastVal (routeEntry ag (ag ++ "_")) routes (ag ++ "_" ++ R)).isSome := by
    rcases hex with ⟨r, hr, he⟩
    have hfr := routeEntry_eq ag (ag ++ "_") r (by rw [he]; exact hR)
    rw [he] at hfr
    exact lastVal_isSome hr hfr
  cases hl : lastVal (routeEntry ag (ag ++ "_")) routes (ag ++ "_" ++ R) with
  | none => rw [hl] at hsome; simp at hsome
  | some meta =>
    refine ⟨meta, rfl, ?_⟩
    rcases lastVal_sound hl with ⟨r2, hr2, hf2⟩
    by_cases h2 : rget r2 "route_id" = ""
    · simp [routeEntry, h2] at hf2
    · rw [routeEntry_eq _ _ _ h2] at hf2
      simp only [Option.some.injEq, Prod.mk.injEq] at hf2
      have hrid : rget r2 "route_id" = R := string_append_left_cancel hf2.1
      rw [← hf2.2]
      exact hall r2 hr2 hrid

theorem mem_stop_routes_single (ag : String) (ds : Dataset) (t2r : SDict String)
    (k x : String) :
    x ∈ (dfind? (build_stop_to_routes [(ag, ds)] t2r true) k).getD [] ↔
      ∃ st ∈ ds.stop_times, stContrib true (ag ++ "_") t2r st k x := by
  rw [build_stop_to_routes_single, dfind?_map_value]
  have hmem := foldl_stStep_mem true (ag ++ "_") t2r ds.stop_times [] k x
  cases hraw : dfind? (ds.stop_times.foldl (stStep true (ag ++ "_") t2r) []) k with
  | none =>
    simp only [hraw, Option.map_none', Option.getD_none]
    constructor
    · intro hx
      simp at hx
    · intro hx
      have h2 := hmem.mpr (Or.inr hx)
      rw [dGetSet, hraw] at h2
      simp at h2
  | some s =>
    simp only [hraw, Option.map_some', Option.getD_some]
    rw [mem_sortStrings]
    have h2 : dGetSet (ds.stop_times.foldl (stStep true (ag ++ "_") t2r) []) k = s := by
      rw [dGetSet, hraw]
      rfl
    rw [h2] at hmem
    rw [hmem]
    simp [dGetSet, dfind?]

theorem t2r_filtered_other (ag T tid : String) (trips : List Row) (htid : tid ≠ T) :
    dfind? ((trips.filter (fun t => rget t "trip_id" ≠ T)).foldl
        (keyedStep (tripEntry (ag ++ "_"))) []) (ag ++ "_" ++ tid) =
      dfind? (trips.foldl (keyedStep (tripEntry (ag ++ "_"))) []) (ag ++ "_" ++ tid) := by
  have hh : ∀ t : Row, (decide (rget t "trip_id" ≠ T)) = false →
      ∀ v, tripEntry (ag ++ "_") t ≠ some (ag ++ "_" ++ tid, v) := by
    intro t hp v hv
    have ht : rget t "trip_id" = T := by simpa using hp
    by_cases h1 : rget t "trip_id" = ""
    · simp [tripEntry, h1] at hv
    · by_cases h2 : rget t "route_id" = ""
      · simp [tripEntry, h1, h2] at hv
      · rw [tripEntry_eq _ _ h1 h2] at hv
        simp only [Option.some.injEq, Prod.mk.injEq] at hv
        have h3 : rget t "trip_id" = tid := string_append_left_cancel hv.1
        rw [ht] at h3
        exact htid h3.symm
  rw [foldl_keyedStep_dfind?, foldl_keyedStep_dfind?, lastVal_filter hh]

theorem t2r_filtered_T (ag T : String) (trips : List Row) :
    dfind? ((trips.filter (fun t => rget t "trip_id" ≠ T)).foldl
        (keyedStep (tripEntry (ag ++ "_"))) []) (ag ++ "_" ++ T) = none := by
  rw [foldl_keyedStep_dfind?]
  have hnone : lastVal (tripEntry (ag ++ "_"))
      (trips.filter (fun t => rget t "trip_id" ≠ T)) (ag ++ "_" ++ T) = none := by
    apply lastVal_eq_none
    intro t ht v hv
    have htne : rget t "trip_id" ≠ T := by simpa using (List.mem_filter.mp ht).2
    by_cases h1 : rget t "trip_id" = ""
    · simp [tripEntry, h1] at hv
    · by_cases h2 : rget t "route_id" = ""
      · simp [tripEntry, h1, h2] at hv
      · rw [tripEntry_eq _ _ h1 h2] at hv
        simp only [Option.some.injEq, Prod.mk.injEq] at hv
        exact htne (string_append_left_cancel hv.1)
  rw [hnone]
  rfl

theorem stContrib_true_iff (agPre : String) (t2r : SDict String) (st : Row) (k x : String) :
    stContrib true agPre t2r st k x ↔
      (rget st "stop_id" ≠ "" ∧ rget st "trip_id" ≠ "" ∧
       k = agPre ++ rget st "stop_id" ∧
       dfind? t2r (agPre ++ rget st "trip_id") = some x) := Iff.rfl

/-- C1 (amended): join correctness over one agency in prefixed mode.
If every trips row for trip id T names route id R and at least one
exists, every routes row for R resolves its short name to 12 and at
least one exists, some stop_times row links stop S to trip T, and S
survives the stop filter, then the emitted Feature for the harmonized
id of S lists 12 in routes_serving. Moreover, with every trips row for
T removed, the joined route set for S consists exactly of the routes
resolved from stop_times rows of S through trips other than T: trip T's
contribution disappears and every route contributed by other trips is
unchanged (the display string 12 itself may persist when another route
serving S shares that short name). -/
theorem C1_join_correctness (ag S T R now : String) (ds : Dataset)
    (hS : S ≠ "") (hT : T ≠ "") (hR : R ≠ "")
    (hst : ∃ st ∈ ds.stop_times, rget st "stop_id" = S ∧ rget st "trip_id" = T)
    (htripsAll : ∀ t ∈ ds.trips, rget t "trip_id" = T → rget t "route_id" = R)
    (htripsEx : ∃ t ∈ ds.trips, rget t "trip_id" = T)
    (hroutesAll : ∀ r ∈ ds.routes, rget r "route_id" = R →
      pyOrStr (rowGet? r "route_short_name") (pyOrStr (rowGet? r "route_id") "") = "12")
    (hroutesEx : ∃ r ∈ ds.routes, rget r "route_id" = R)
    (hsurv : (dfind? (filter_and_clean_stops (harmonize_and_consolidate [(ag, ds)] true).1)
      (ag ++ "_" ++ S)).isSome) :
    (∃ f ∈ (pipelineRun [(ag, ds)] true false now).features,
      f.id = ag ++ "_" ++ S ∧ "12" ∈ f.properties.routes_serving) ∧
    (∀ X : String,
      X ∈ (dfind? (build_stop_to_routes
          [(ag, { ds with trips := ds.trips.filter (fun t => rget t "trip_id" ≠ T) })]
          (build_route_mappings
            [(ag, { ds with trips := ds.trips.filter (fun t => rget t "trip_id" ≠ T) })]
            true).2 true) (ag ++ "_" ++ S)).getD [] ↔
        ∃ st ∈ ds.stop_times, rget st "stop_id" = S ∧ rget st "trip_id" ≠ "" ∧
          rget st "trip_id" ≠ T ∧
          dfind? (build_route_mappings [(ag, ds)] true).2
            (ag ++ "_" ++ rget st "trip_id") = some X) := by
  have hbrm : (build_route_mappings [(ag, ds)] true).2 =
      ds.trips.foldl (keyedStep (tripEntry (ag ++ "_"))) [] := rfl
  have ht2rR : (build_route_mappings
      [(ag, { ds with trips := ds.trips.filter (fun t => rget t "trip_id" ≠ T) })] true).2 =
      (ds.trips.filter (fun t => rget t "trip_id" ≠ T)).foldl
        (keyedStep (tripEntry (ag ++ "_"))) [] := rfl
  have htr : dfind? (build_route_mappings [(ag, ds)] true).2 (ag ++ "_" ++ T) =
      some (ag ++ "_" ++ R) := by
    rw [hbrm]
    exact t2r_lookup_of_consistent ag ds.trips T R hT hR htripsAll htripsEx
  constructor
  · obtain ⟨meta, hmeta, hsn⟩ : ∃ meta,
        dfind? (build_route_mappings [(ag, ds)] true).1 (ag ++ "_" ++ R) = some meta ∧
          meta.route_short_name = "12" := by
      rw [show (build_route_mappings [(ag, ds)] true).1 =
        ds.routes.foldl (keyedStep (routeEntry ag (ag ++ "_"))) [] from rfl]
      exact route_info_lookup_of_consistent ag ds.routes R "12" hR hroutesAll hroutesEx
    have hX : (ag ++ "_" ++ R) ∈ (dfind? (build_stop_to_routes [(ag, ds)]
        (build_route_mappings [(ag, ds)] true).2 true) (ag ++ "_" ++ S)).getD [] := by
      rw [mem_stop_routes_single]
      rcases hst with ⟨st, hstm, hsid, htid⟩
      refine ⟨st, hstm, (stContrib_true_iff _ _ _ _ _).mpr ⟨?_, ?_, ?_, ?_⟩⟩
      · rw [hsid]; exact hS
      · rw [htid]; exact hT
      · rw [hsid]
      · rw [htid]; exact htr
    rcases Option.isSome_iff_exists.mp hsurv with ⟨cs, hcs⟩
    have hfm : (ag ++ "_" ++ S, cs) ∈
        filter_and_clean_stops (harmonize_and_consolidate [(ag, ds)] true).1 := dfind?_mem hcs
    refine ⟨mkFeature (build_stop_to_routes [(ag, ds)]
        (build_route_mappings [(ag, ds)] true).2 true)
        (build_route_mappings [(ag, ds)] true).1 (ag ++ "_" ++ S, cs), ?_, rfl, ?_⟩
    · show _ ∈ (pipelineRun [(ag, ds)] true false now).features
      simp only [pipelineRun, create_geojson]
      exact List.mem_map_of_mem _ hfm
    · show "12" ∈ ((dfind? (build_stop_to_routes [(ag, ds)]
        (build_route_mappings [(ag, ds)] true).2 true) (ag ++ "_" ++ S)).getD []).map
          (displayName (build_route_mappings [(ag, ds)] true).1)
      refine List.mem_map.mpr ⟨ag ++ "_" ++ R, hX, ?_⟩
      unfold displayName
      rw [hmeta]
      dsimp only
      rw [hsn]
      rw [if_neg (by decide)]
  · intro X
    rw [mem_stop_routes_single]
    constructor
    · rintro ⟨st, hstm, hc⟩
      obtain ⟨h1, h2, h3, h4⟩ := (stContrib_true_iff _ _ _ _ _).mp hc
      have hsid : rget st "stop_id" = S := (string_append_left_cancel h3).symm
      rw [ht2rR] at h4
      have htid_ne : rget st "trip_id" ≠ T := by
        intro he
        rw [he, t2r_filtered_T] at h4
        exact Option.noConfusion h4
      refine ⟨st, hstm, hsid, h2, htid_ne, ?_⟩
      rw [hbrm, ← t2r_filtered_other ag T (rget st "trip_id") ds.trips htid_ne]
      exact h4
    · rintro ⟨st, hstm, hsid, h2, h3, h4⟩
      refine ⟨st, hstm, (stContrib_true_iff _ _ _ _ _).mpr ⟨?_, h2, ?_, ?_⟩⟩
      · rw [hsid]; exact hS
      · rw [hsid]
      · rw [ht2rR, t2r_filtered_other ag T (rget st "trip_id") ds.trips h3, ← hbrm]
        exact h4

/-- The counterexample dataset for C1 as stated: two conflicting trips
rows share trip id t, so the later one overwrites the trip-to-route
entry and route r1 (short name 12) never reaches the join. -/
def conflictDs : Dataset :=
  { stops := [[("stop_id","s"),("stop_lat","35.1"),("stop_lon","33.4")]]
    routes := [[("route_id","r1"),("route_short_name","12")],
               [("route_id","r2"),("route_short_name","99")]]
    trips := [[("trip_id","t"),("route_id","r1")], [("trip_id","t"),("route_id","r2")]]
    stop_times := [[("stop_id","s"),("trip_id","t")]]
    source_filename := "c.zip" }

/-- Counterexample to C1 as stated: the dataset contains a stop_times
row (s, t), a trips row (t, r1) with non-empty route id, and a routes
row (r1, short name 12), and stop s survives the filter - yet the
emitted Feature for AG_s has routes_serving equal to 99 alone, with 12
absent, because the later conflicting trips row (t, r2) wins the
trip-to-route dictionary assignment. -/
theorem C1_counterexample :
    (([("stop_id","s"),("trip_id","t")] : Row) ∈ conflictDs.stop_times ∧
      ([("trip_id","t"),("route_id","r1")] : Row) ∈ conflictDs.trips ∧
      rget ([("trip_id","t"),("route_id","r1")] : Row) "route_id" = "r1" ∧
      ("r1" : String) ≠ "" ∧
      ([("route_id","r1"),("route_short_name","12")] : Row) ∈ conflictDs.routes ∧
      (dfind? (filter_and_clean_stops
        (harmonize_and_consolidate [("AG", conflictDs)] true).1) "AG_s").isSome) ∧
    (pipelineRun [("AG", conflictDs)] true false "T").features.map
      (fun f => (f.id, f.properties.routes_serving)) = [("AG_s", ["99"])] := by
  refine ⟨⟨?_, ?_, ?_, ?_, ?_, ?_⟩, ?_⟩ <;> decide

/-- Witness for the amended C1 at the sample dataset: all hypotheses
hold concretely and the feature for AG_s lists 12. -/
theorem C1_join_correctness_witness :
    ((∃ st ∈ sampleDs.stop_times, rget st "stop_id" = "s" ∧ rget st "trip_id" = "t") ∧
      (∀ t ∈ sampleDs.trips, rget t "trip_id" = "t" → rget t "route_id" = "r") ∧
      (∀ r ∈ sampleDs.routes, rget r "route_id" = "r" →
        pyOrStr (rowGet? r "route_short_name") (pyOrStr (rowGet? r "route_id") "") = "12") ∧
      (dfind? (filter_and_clean_stops
        (harmonize_and_consolidate [("AG", sampleDs)] true).1) ("AG" ++ "_" ++ "s")).isSome) ∧
    (∃ f ∈ (pipelineRun [("AG", sampleDs)] true false "T").features,
      f.id = "AG" ++ "_" ++ "s" ∧ "12" ∈ f.properties.routes_serving) :=
  ⟨⟨by decide, by decide, by decide, by decide⟩,
   (C1_join_correctness "AG" "s" "t" "r" "T" sampleDs (by decide) (by decide) (by decide)
     (by decide) (by decide) (by decide) (by decide) (by decide) (by decide)).1⟩

end GtfsPipeline
